import Mathlib

/-!
Verification development for the DHTExporter repository (`dhtexporter.py`).

The file shallowly embeds the two subsystems of the program:

* the export pipeline (Python): `fetch_metadata`, the five satellite
  lookups, `should_include_message_text`, `process_message` and
  `generate_messages_ndjson`;
* the embedded viewer (JavaScript): the sorters and filters of
  `processor.mjs`, the document store / query engine of `state.mjs`
  (`uploadFile`, `selectChannel`, pagination, `navigateToMessage`,
  channel-hierarchy resolution) and the text renderer of `discord.mjs`
  (`processMessageContents`).

SQLite result sets are modelled as lists of rows; a `WHERE` clause becomes a
filter.  JavaScript objects and `Map`s are modelled as association lists in
insertion order; JavaScript `Set`s as duplicate-free lists in insertion
order.  Machine integers of the source are unbounded (`Int`/`Nat`), which is
faithful: Python integers are unbounded and the ids/timestamps involved stay
far below 2^53 float precision on the JavaScript side only in the sense that
the viewer never does arithmetic on ids (it compares them as strings).
Recursions that terminate in the source only because the data is finite
(`reachIds`, `getSortedSubTree`) are given explicit fuel that provably
suffices for the source's inputs.
-/

/-- Python truthiness of an optional string (`if text:` — `None` and the
empty string are falsy). -/
def truthyStr (o : Option String) : Bool :=
  match o with
  | none => false
  | some s => !(s = "")

/-- Python truthiness of an optional integer (`if edit_timestamp:` — `None`
and `0` are falsy). -/
def truthyInt (o : Option Int) : Bool :=
  match o with
  | none => false
  | some v => !(v = 0)

/-- Python truthiness of an optional list (`if attachments:` — `None` and the
empty list are falsy). -/
def truthyList (o : Option (List α)) : Bool :=
  match o with
  | none => false
  | some l => !l.isEmpty

/-- JSON values, as built by the Python exporter (`json` module). -/
inductive JVal where
  | str (s : String)
  | num (n : Int)
  | bool (b : Bool)
  | null
  | arr (elems : List JVal)
  | obj (fields : List (String × JVal))
deriving Repr

/-- Field lookup in a JSON object given as an ordered field list (Python
dict access / key-membership test). -/
def lookupField (fields : List (String × JVal)) (key : String) : Option JVal :=
  match fields with
  | [] => none
  | (k, v) :: rest => if k = key then some v else lookupField rest key

/-- `json.dumps` escaping of one character inside a string literal
(`ensure_ascii=False`: only the JSON-mandatory escapes). -/
def pyJsonEscapeChar (c : Char) : String :=
  if c = '"' then "\\\""
  else if c = '\\' then "\\\\"
  else if c = '\n' then "\\n"
  else if c = '\t' then "\\t"
  else if c = '\r' then "\\r"
  else if c.val < 32 then
    "\\u00" ++ String.mk [Nat.digitChar (c.val.toNat / 16), Nat.digitChar (c.val.toNat % 16)]
  else String.mk [c]

/-- `json.dumps` rendering of a string literal. -/
def pyJsonStr (s : String) : String :=
  "\"" ++ String.join (s.data.map pyJsonEscapeChar) ++ "\""

/-- Comma-join with Python's default `", "` item separator. -/
def joinComma (l : List String) : String :=
  match l with
  | [] => ""
  | [x] => x
  | x :: rest => x ++ ", " ++ joinComma rest

mutual

/-- `json.dumps(v, ensure_ascii=False)` with Python's default separators
`", "` and `": "`. -/
def jdump : JVal → String
  | .str s => pyJsonStr s
  | .num n => toString n
  | .bool b => if b then "true" else "false"
  | .null => "null"
  | .arr elems => "[" ++ joinComma (jdumpList elems) ++ "]"
  | .obj fields => "\x7b" ++ joinComma (jdumpFields fields) ++ "\x7d"

def jdumpList : List JVal → List String
  | [] => []
  | v :: rest => jdump v :: jdumpList rest

def jdumpFields : List (String × JVal) → List String
  | [] => []
  | (k, v) :: rest => (pyJsonStr k ++ ": " ++ jdump v) :: jdumpFields rest

end

/-! ## Export side: the SQLite source store

Each satellite table of the DHT database is a list of rows; the exporter's
point queries (`WHERE message_id = ?`) become filters keyed by the message id
rendered as a string (`str(message_id)`), which is how `process_message`
passes it. -/

/-- One row of `message_attachments` joined with `attachments`. -/
structure AttachmentRow where
  msgId : String
  name : String
  download_url : String
  width : Option Int
  height : Option Int
deriving Repr, DecidableEq

/-- One row of `message_embeds`: the raw embed JSON payload. -/
structure EmbedRow where
  msgId : String
  json : String
deriving Repr, DecidableEq

/-- One row of `message_edit_timestamps`. -/
structure EditRow where
  msgId : String
  edit_timestamp : Int
deriving Repr, DecidableEq

/-- One row of `message_reactions`. -/
structure ReactionRow where
  msgId : String
  emoji_id : Option Int
  emoji_name : String
  emoji_flags : Int
  count : Int
deriving Repr, DecidableEq

/-- One row of `message_replied_to`. -/
structure ReplyRow where
  msgId : String
  replied_to_id : Int
deriving Repr, DecidableEq

/-- The satellite relations of the source store that `process_message`
queries (the messages table itself is passed separately). -/
structure Db where
  attachmentRows : List AttachmentRow
  embedRows : List EmbedRow
  editRows : List EditRow
  reactionRows : List ReactionRow
  replyRows : List ReplyRow
deriving Repr

/-- One row of the `messages` table as selected by
`SELECT message_id, sender_id, channel_id, text, timestamp FROM messages`. -/
structure MsgRow where
  message_id : Int
  sender_id : Int
  channel_id : Int
  text : Option String
  timestamp : Int
deriving Repr, DecidableEq

/-- `get_message_attachments`: builds the attachment objects for one message;
width/height are included only when both are truthy (`if width and height:`),
and an empty result set maps to `None`. -/
def get_message_attachments (db : Db) (message_id : String) : Option (List JVal) :=
  let rows := db.attachmentRows.filter (fun r => r.msgId = message_id)
  let attachments := rows.map (fun r =>
    JVal.obj ([("url", JVal.str r.download_url), ("name", JVal.str r.name)] ++
      (if truthyInt r.width && truthyInt r.height then
        [("width", JVal.num (r.width.getD 0)), ("height", JVal.num (r.height.getD 0))]
      else [])))
  if attachments.isEmpty then none else some attachments

/-- `get_message_edit_timestamp`: first matching row or `None`. -/
def get_message_edit_timestamp (db : Db) (message_id : String) : Option Int :=
  (db.editRows.find? (fun r => r.msgId = message_id)).map (fun r => r.edit_timestamp)

/-- `get_message_embeds`: the raw embed JSON strings, `None` when empty. -/
def get_message_embeds (db : Db) (message_id : String) : Option (List String) :=
  let embeds := (db.embedRows.filter (fun r => r.msgId = message_id)).map (fun r => r.json)
  if embeds.isEmpty then none else some embeds

/-- `get_message_reactions`: reaction objects `{n, a, c}` plus `id` when the
emoji id is truthy; `None` when empty. -/
def get_message_reactions (db : Db) (message_id : String) : Option (List JVal) :=
  let reactions := (db.reactionRows.filter (fun r => r.msgId = message_id)).map (fun r =>
    JVal.obj ([("n", JVal.str r.emoji_name), ("a", JVal.bool (!(r.emoji_flags = 0))),
      ("c", JVal.num r.count)] ++
      (if truthyInt r.emoji_id then [("id", JVal.str (toString (r.emoji_id.getD 0)))] else [])))
  if reactions.isEmpty then none else some reactions

/-- `get_message_reply`: the replied-to id as a string, or `None`. -/
def get_message_reply (db : Db) (message_id : String) : Option String :=
  (db.replyRows.find? (fun r => r.msgId = message_id)).map (fun r => toString r.replied_to_id)

/-- `should_include_message_text`: include the text field when the text is
truthy; drop it when there are attachments or embeds; otherwise include the
empty string. -/
def should_include_message_text (text : Option String)
    (attachments : Option (List JVal)) (embeds : Option (List String)) : Bool :=
  if truthyStr text then true
  else if truthyList attachments || truthyList embeds then false
  else true

/-- The JSON object built by `process_message` for one message row (field
list in insertion order).  The `idx`/`total` arguments exist only for
progress reporting and do not influence the document. -/
def process_message_obj (db : Db) (row : MsgRow) (_idx _total : Nat) : List (String × JVal) :=
  let message_id_str := toString row.message_id
  let attachments := get_message_attachments db message_id_str
  let embeds := get_message_embeds db message_id_str
  let edit_timestamp := get_message_edit_timestamp db message_id_str
  let reactions := get_message_reactions db message_id_str
  let reply_to := get_message_reply db message_id_str
  [("id", JVal.str message_id_str),
   ("c", JVal.str (toString row.channel_id)),
   ("u", JVal.str (toString row.sender_id)),
   ("t", JVal.num row.timestamp)] ++
  (if should_include_message_text row.text attachments embeds then
    [("m", JVal.str (row.text.getD ""))] else []) ++
  (match attachments with | some a => [("a", JVal.arr a)] | none => []) ++
  (match embeds with | some e => [("e", JVal.arr (e.map JVal.str))] | none => []) ++
  (if truthyInt edit_timestamp then [("te", JVal.num (edit_timestamp.getD 0))] else []) ++
  (match reactions with | some re => [("re", JVal.arr re)] | none => []) ++
  (if truthyStr reply_to then [("r", JVal.str (reply_to.getD ""))] else [])

/-- `process_message`: one serialized record. -/
def process_message (db : Db) (row : MsgRow) (idx total : Nat) : String :=
  jdump (JVal.obj (process_message_obj db row idx total))

/-- `generate_messages_ndjson`, with the `ThreadPoolExecutor` made explicit:
tasks are submitted in input order; `completionOrder` is the order in which
the workers happen to finish them (any permutation of the task indices);
`executor.map` then yields the results in submission-index order.  The worker
count does not appear in the ordering discipline, exactly as in
`executor.map`. -/
def generate_messages_ndjson (db : Db) (rows : List MsgRow) (_num_threads : Nat)
    (completionOrder : List Nat) : List String :=
  let total := rows.length
  let tasks := rows.enum.map (fun p => (p.1, process_message db p.2 p.1 total))
  let completed := completionOrder.filterMap (fun i => tasks.find? (fun t => t.1 = i))
  (List.range total).filterMap (fun i => (completed.find? (fun t => t.1 = i)).map (fun t => t.2))

/-- The purely sequential export: `process_message` mapped over the rows in
input order. -/
def sequentialMessages (db : Db) (rows : List MsgRow) : List String :=
  rows.enum.map (fun p => process_message db p.2 p.1 rows.length)

/-! ## Viewer: snowflake sorter (`processor.mjs`) -/

/-- JavaScript string comparison `a < b`: lexicographic by code unit.  (All
strings the sorter ever sees are decimal digit strings, for which code-unit
order and code-point order agree.) -/
def lexLtB : List Char → List Char → Bool
  | [], [] => false
  | [], _ :: _ => true
  | _ :: _, [] => false
  | a :: as, b :: bs => if a < b then true else if b < a then false else lexLtB as bs

/-- `key1 < key2` on JavaScript strings. -/
def jsLtB (a b : String) : Bool := lexLtB a.data b.data

/-- `sorter.oldestToNewest`: compare id strings by length first, then
lexicographically for equal length. -/
def oldestToNewest (key1 key2 : String) : Int :=
  if key1.length = key2.length then
    if jsLtB key2 key1 then 1 else if jsLtB key1 key2 then -1 else 0
  else
    if key2.length < key1.length then 1 else -1

/-- `sorter.newestToOldest`. -/
def newestToOldest (key1 key2 : String) : Int :=
  if key1.length = key2.length then
    if jsLtB key2 key1 then -1 else if jsLtB key1 key2 then 1 else 0
  else
    if key2.length < key1.length then -1 else 1

/-- `Array.prototype.sort` with a comparator: stable sort keeping `a` before
`b` whenever the comparator is non-positive. -/
def sortWithCmp (cmp : String → String → Int) (keys : List String) : List String :=
  keys.insertionSort (fun a b => cmp a b ≤ 0)

/-! ## Viewer: document model and URL classification -/

/-- A user entry of the loaded metadata document. -/
structure ViewUser where
  name : String
  displayName : Option String
  avatar : Option String
deriving Repr, DecidableEq

/-- A server entry of the loaded metadata document. -/
structure ViewServer where
  name : String
  type : String
  iconUrl : Option String
deriving Repr, DecidableEq

/-- A channel entry of the loaded metadata document (the optional fields are
absent in archives produced by this exporter but understood by the viewer). -/
structure ViewChannel where
  server : String
  name : String
  parent : Option String
  position : Option Int
  topic : Option String
  nsfw : Option Bool
deriving Repr, DecidableEq

/-- The metadata document: three maps, modelled as association lists in
insertion order. -/
structure ViewMeta where
  users : List (String × ViewUser)
  servers : List (String × ViewServer)
  channels : List (String × ViewChannel)
deriving Repr, DecidableEq

/-- An attachment of a loaded message record. -/
structure ViewAttachment where
  url : String
  name : String
  width : Option Int
  height : Option Int
deriving Repr, DecidableEq

/-- A reaction of a loaded message record (`{n, a, c, optional id}`). -/
structure ViewReaction where
  n : String
  a : Bool
  c : Int
  id : Option String
deriving Repr, DecidableEq

/-- A message record as held by the store after `loadData` strips `id` and
`c`; `f` is the legacy flag word consulted by the `edited` filter. -/
structure StoredMessage where
  u : String
  t : Int
  m : Option String
  a : Option (List ViewAttachment)
  e : Option (List String)
  te : Option Int
  re : Option (List ViewReaction)
  r : Option String
  f : Option Nat
deriving Repr, DecidableEq

instance : Inhabited StoredMessage :=
  ⟨⟨"", 0, none, none, none, none, none, none, none⟩⟩

/-- The per-channel message map of the store: channel id → (message id →
message), both in insertion order. -/
abbrev ViewData := List (String × List (String × StoredMessage))

/-- Association-list lookup (JavaScript object property access). -/
def alookup (l : List (String × α)) (key : String) : Option α :=
  match l with
  | [] => none
  | (k, v) :: rest => if k = key then some v else alookup rest key

/-- First index of `pat` as a sublist of the second argument
(JavaScript `indexOf` on strings, on the character level). -/
def findSub (pat : List Char) : List Char → Option Nat
  | [] => if pat.isEmpty then some 0 else none
  | c :: cs => if pat.isPrefixOf (c :: cs) then some 0 else (findSub pat cs).map (· + 1)

/-- The result of the browser URL parser, reduced to the one component the
viewer reads. -/
structure JsUrl where
  pathname : String
deriving Repr, DecidableEq

/-- `dom.tryParseUrl`: model of the browser WHATWG URL parser, restricted to
the hierarchical `scheme://host[/path][?query][#fragment]` shape that
attachment URLs take; other shapes are modelled as parse failures. -/
def tryParseUrl (url : String) : Option JsUrl :=
  let cs := url.data
  match findSub "://".data cs with
  | none => none
  | some i =>
    let scheme := cs.take i
    if scheme.isEmpty || !scheme.all (fun c => c.isAlpha) then none
    else
      let rest := cs.drop (i + 3)
      let host := rest.takeWhile (fun c => !(c = '/' || c = '?' || c = '#'))
      if host.isEmpty then none
      else
        let after := rest.drop host.length
        let path := after.takeWhile (fun c => !(c = '?' || c = '#'))
        some ⟨if path.isEmpty then "/" else String.mk path⟩

/-- `isImageUrl`: extension of the pathname after its last dot, lowercased,
against the fixed image set. -/
def isImageUrl (url : JsUrl) : Bool :=
  let p := url.pathname.data
  let revTail := p.reverse.takeWhile (fun c => !(c = '.'))
  let ext := if revTail.length = p.length then ""
             else String.toLower (String.mk ('.' :: revTail.reverse))
  ext = ".png" || ext = ".gif" || ext = ".jpg" || ext = ".jpeg"

/-- `discord.isImageAttachment`. -/
def isImageAttachment (attachment : ViewAttachment) : Bool :=
  match tryParseUrl attachment.url with
  | some url => isImageUrl url
  | none => false

/-! ## Viewer: filter predicates (`processor.mjs`)

`filter.byTime` and `filter.byRegex` exist in the source but are never
produced by `setActiveFilter`; `byRegex` wraps an opaque browser regex and is
not modelled. -/

/-- `filter.byUser`. -/
def filterByUser (user : String) (message : StoredMessage) : Bool :=
  message.u = user

/-- `filter.byTime`. -/
def filterByTime (timeStart timeEnd : Int) (message : StoredMessage) : Bool :=
  decide (timeStart ≤ message.t) && decide (message.t ≤ timeEnd)

/-- `filter.byContents`: substring test on the text, absent text as empty. -/
def filterByContents (substr : String) (message : StoredMessage) : Bool :=
  (findSub substr.data (message.m.getD "").data).isSome

/-- Property access `embed.type` where `embed` is one of the stored raw
embed payload strings: on a JavaScript string primitive this reads a
non-existent property and yields `undefined`. -/
def embedStringTypeProp (_embed : String) : Option String := none

/-- `filter.withImages`: an image-typed embed (see `embedStringTypeProp`;
over stored records this arm never fires) or an image-classified
attachment. -/
def filterWithImages (message : StoredMessage) : Bool :=
  (match message.e with
   | some es => es.any (fun e => embedStringTypeProp e = some "image")
   | none => false) ||
  (match message.a with
   | some as => as.any isImageAttachment
   | none => false)

/-- `filter.withDownloads`: an attachment failing the image test. -/
def filterWithDownloads (message : StoredMessage) : Bool :=
  match message.a with
  | some as => as.any (fun a => !isImageAttachment a)
  | none => false

/-- `filter.withEmbeds`. -/
def filterWithEmbeds (message : StoredMessage) : Bool :=
  match message.e with
  | some es => !es.isEmpty
  | none => false

/-- `filter.withAttachments`. -/
def filterWithAttachments (message : StoredMessage) : Bool :=
  match message.a with
  | some as => !as.isEmpty
  | none => false

/-- `filter.isEdited`: the edit timestamp when the record has one (truthy
test), else bit 0 of the legacy flag word. -/
def filterIsEdited (message : StoredMessage) : Bool :=
  match message.te with
  | some te => !(te = 0)
  | none => (message.f.getD 0) % 2 = 1

/-- The filter closures `setActiveFilter` can install, defunctionalized. -/
inductive ActiveFilter where
  | byUser (user : String)
  | byContents (substr : String)
  | withImages
  | withDownloads
  | isEdited
deriving Repr, DecidableEq

/-- Application of an installed filter. -/
def applyFilter : ActiveFilter → StoredMessage → Bool
  | .byUser u => filterByUser u
  | .byContents s => filterByContents s
  | .withImages => filterWithImages
  | .withDownloads => filterWithDownloads
  | .isEdited => filterIsEdited

/-! ## Viewer: document store and query engine (`state.mjs`) -/

/-- The resolved reply sub-record of a display message. -/
structure ReplyDisplay where
  id : String
  user : ViewUser
  avatar : Option (String × String)
  contents : Option String
deriving Repr, DecidableEq

/-- One entry of `getMessageList`: the view-model handed to the renderer.
The embeds are kept as the stored raw payload strings (the source parses
them with `JSON.parse` at this point; embeds are opaque payloads that only
the renderer interprets). -/
structure DisplayMessage where
  user : ViewUser
  avatar : Option (String × String)
  timestamp : Int
  jump : String
  contents : Option String
  embeds : Option (List String)
  attachments : Option (List ViewAttachment)
  edit : Option Int
  reply : Option (Option ReplyDisplay)
  reactions : Option (List ViewReaction)
deriving Repr, DecidableEq

/-- The mutable state captured by the `state_default` closure.  The filter
closure is defunctionalized to `ActiveFilter`; the DOM refresh callbacks
carry no state and are not modelled. -/
structure ViewState where
  loadedFileMeta : Option ViewMeta
  loadedFileData : Option ViewData
  loadedMessages : Option (List String)
  filterFunction : Option ActiveFilter
  selectedChannel : Option String
  currentPage : Nat
  messagesPerPage : Nat
  hasActiveFilter : Bool
deriving Repr, DecidableEq

/-- The state before any archive is loaded. -/
def initialViewState : ViewState :=
  ⟨none, none, none, none, none, 0, 0, false⟩

/-- `getUser`: metadata lookup with the unknown-user fallback. -/
def getUser (st : ViewState) (id : String) : ViewUser :=
  match st.loadedFileMeta with
  | some meta => (alookup meta.users id).getD ⟨"&lt;unknown&gt;", none, none⟩
  | none => ⟨"&lt;unknown&gt;", none, none⟩

/-- `getServer`: metadata lookup with the unknown-server fallback. -/
def getServer (st : ViewState) (id : String) : ViewServer :=
  match st.loadedFileMeta with
  | some meta => (alookup meta.servers id).getD ⟨"&lt;unknown&gt;", "unknown", none⟩
  | none => ⟨"&lt;unknown&gt;", "unknown", none⟩

/-- `getMessages`: the message map of a channel, empty when unknown. -/
def getMessages (st : ViewState) (channel : String) : List (String × StoredMessage) :=
  match st.loadedFileData with
  | some d => (alookup d channel).getD []
  | none => []

/-- `getMessageById`: scan all channels for a message id. -/
def getMessageById (st : ViewState) (id : String) : Option StoredMessage :=
  match st.loadedFileData with
  | some d => (d.find? (fun ce => (alookup ce.2 id).isSome)).bind (fun ce => alookup ce.2 id)
  | none => none

/-- `getMessageChannel`: scan all channels for the one owning a message id. -/
def getMessageChannel (st : ViewState) (id : String) : Option String :=
  match st.loadedFileData with
  | some d => (d.find? (fun ce => (alookup ce.2 id).isSome)).map (fun ce => ce.1)
  | none => none

/-- `getFilteredMessageKeys`: the keys of a channel, filtered by the active
filter when there is one. -/
def getFilteredMessageKeys (st : ViewState) (channel : String) : List String :=
  let messages := getMessages st channel
  let keys := messages.map (fun kv => kv.1)
  match st.filterFunction with
  | some f => keys.filter (fun key => applyFilter f ((alookup messages key).getD default))
  | none => keys

/-- `selectChannel`: reset the page, remember the channel, recompute the
filtered key list sorted oldest-to-newest. -/
def selectChannel (st : ViewState) (channel : String) : ViewState :=
  { st with
    currentPage := 1,
    selectedChannel := some channel,
    loadedMessages := some (sortWithCmp oldestToNewest (getFilteredMessageKeys st channel)) }

/-- `uploadFile`: at most one load per store instance.  The `typeof`
argument checks of the source are satisfied by construction here, since both
arguments are structured documents.  On the throwing path the state is
returned untouched. -/
def uploadFile (meta : ViewMeta) (data : ViewData) (st : ViewState) :
    Except String Unit × ViewState :=
  if st.loadedFileMeta.isSome then
    (Except.error "A file is already loaded!", st)
  else
    (Except.ok (),
     { st with
       loadedFileMeta := some meta,
       loadedFileData := some data,
       loadedMessages := none,
       selectedChannel := none,
       currentPage := 1 })

/-- `getPageCount`: 0 before a channel is selected, one single page when the
page size is 0 (unbounded), otherwise `Math.ceil(length / messagesPerPage)`. -/
def getPageCount (st : ViewState) : Nat :=
  match st.loadedMessages with
  | none => 0
  | some l =>
    if st.messagesPerPage = 0 then 1
    else (l.length + st.messagesPerPage - 1) / st.messagesPerPage

/-- The value returned by `getCurrentPage`: the stored page, clamped down to
the page count when that is positive, and `0` promoted to `1`
(`currentPage || 1`). -/
def getCurrentPageVal (st : ViewState) : Nat :=
  let total := getPageCount st
  let clamped := if total > 0 && st.currentPage > total then total else st.currentPage
  if clamped = 0 then 1 else clamped

/-- The per-key display record built inside `getMessageList` (the mapping
closure of the source, named). -/
def displayOf (st : ViewState) (messages : List (String × StoredMessage))
    (key : String) : DisplayMessage :=
  let message := (alookup messages key).getD default
  let user := getUser st message.u
  let avatar := match user.avatar with
    | some path => if path = "" then none else some (message.u, path)
    | none => none
  { user := user,
    avatar := avatar,
    timestamp := message.t,
    jump := key,
    contents := message.m,
    embeds := message.e,
    attachments := message.a,
    edit := message.te,
    reply :=
      match message.r with
      | some rid =>
        (match getMessageById st rid with
         | some replyMessage =>
           let replyUser := getUser st replyMessage.u
           let replyAvatar := match replyUser.avatar with
             | some p => if p = "" then none else some (replyMessage.u, p)
             | none => none
           some (some ⟨rid, replyUser, replyAvatar, replyMessage.m⟩)
         | none => some none)
      | none => none,
    reactions := message.re }

/-- `getMessageList`: the current page slice of the loaded keys, mapped to
display records. -/
def getMessageList (st : ViewState) : List DisplayMessage :=
  match st.loadedMessages with
  | none => []
  | some keys =>
    let messages := match st.selectedChannel with
      | some ch => getMessages st ch
      | none => []
    let startIndex := st.messagesPerPage * (getCurrentPageVal st - 1)
    let sliced := if st.messagesPerPage = 0 then keys.drop startIndex
                  else (keys.drop startIndex).take st.messagesPerPage
    sliced.map (displayOf st messages)

/-- `navigateToMessage`: returns the in-page index of the located message
(`some (-1)` is the not-found signal; `none` models the `NaN` that
`index % messagesPerPage` produces when the page size is 0) together with
the state after the call. -/
def navigateToMessage (st : ViewState) (id : String) : Option Int × ViewState :=
  match st.loadedMessages with
  | none => (some (-1), st)
  | some _ =>
    let channel := getMessageChannel st id
    let st1 := match channel with
      | some ch => if !(st.selectedChannel = some ch) then selectChannel st ch else st
      | none => st
    match (st1.loadedMessages.getD []).findIdx? (fun k => k = id) with
    | none => (some (-1), st1)
    | some index =>
      if st1.messagesPerPage = 0 then
        (none, { st1 with currentPage := max 1 (getPageCount st1) })
      else
        (some (Int.ofNat (index % st1.messagesPerPage)),
         { st1 with currentPage := max 1 (min (getPageCount st1) (1 + index / st1.messagesPerPage)) })

/-- `setMessagesPerPage`. -/
def setMessagesPerPage (st : ViewState) (amount : Nat) : ViewState :=
  { st with messagesPerPage := amount }

/-- The page-navigation actions of `updateCurrentPage`; `pick none` models a
prompt answer that `parseInt` turned into `NaN`. -/
inductive NavAction where
  | first
  | prev
  | next
  | last
  | pick (input : Option Int)
deriving Repr, DecidableEq

/-- `updateCurrentPage`. -/
def updateCurrentPage (st : ViewState) : NavAction → ViewState
  | .first => { st with currentPage := 1 }
  | .prev => { st with currentPage := max 1 (st.currentPage - 1) }
  | .next => { st with currentPage := min (getPageCount st) (st.currentPage + 1) }
  | .last => { st with currentPage := getPageCount st }
  | .pick input =>
    match input with
    | none => st
    | some page =>
      { st with currentPage := (max 1 (min (getPageCount st : Int) page)).toNat }

/-! ## Viewer: channel hierarchy resolution (`state.mjs`)

`generateChannelHierarchy` builds a children-by-parent `Map`, marks
everything reachable from the virtual root `""` (`reachIds`), reparents the
children of every unmarked key directly under the root and drops the
unmarked entries.  The recursive walk and the recursive pre-order traversal
are given fuel one/two more than the number of channels, which bounds the
depth of every reachable chain (each channel has exactly one parent key). -/

/-- `channel.parent || ""`: an absent or empty parent link means the root. -/
def channelEntryParentKey (e : String × ViewChannel) : String :=
  e.2.parent.getD ""

/-- The children set of one parent key of the hierarchy `Map` (insertion
order: the order of `Object.entries(loadedFileMeta.channels)`). -/
def childIds (meta : ViewMeta) (parentId : String) : List String :=
  (meta.channels.filter (fun e => channelEntryParentKey e = parentId)).map (fun e => e.1)

/-- The key set of the hierarchy `Map` in insertion order (the snapshot
taken for `unreachableIds`). -/
def hierKeys (meta : ViewMeta) : List String :=
  meta.channels.foldl (fun acc e =>
    let k := channelEntryParentKey e
    if k ∈ acc then acc else acc ++ [k]) []

/-- `reachIds`, as the list of keys visited by the walk from a starting key
within the given fuel. -/
def reachList (meta : ViewMeta) : Nat → String → List String
  | 0, _ => []
  | fuel + 1, parentId => parentId :: (childIds meta parentId).flatMap (reachList meta fuel)

/-- Fuel sufficient for `reachIds` from the root: reachable chains visit
pairwise distinct keys, so their depth is at most the channel count. -/
def reachFuel (meta : ViewMeta) : Nat := meta.channels.length + 1

/-- The keys left unmarked by `reachIds("")`. -/
def unreachKeys (meta : ViewMeta) : List String :=
  (hierKeys meta).filter (fun k => !(reachList meta (reachFuel meta) "").contains k)

/-- The children map after flattening: unreachable keys are dropped and
their children appended to the root entry (a JS `Set` union; the pieces are
pairwise disjoint because every channel has exactly one parent key). -/
def flattenedChildren (meta : ViewMeta) (parentId : String) : List String :=
  if parentId = "" then
    childIds meta "" ++ (unreachKeys meta).flatMap (childIds meta)
  else if parentId ∈ unreachKeys meta then []
  else childIds meta parentId

/-- `s1.type.localeCompare(s2.type, "en")` on the short ASCII server-type
tags: code-unit comparison. -/
def localeCompareBasic (a b : String) : Int :=
  if jsLtB a b then -1 else if jsLtB b a then 1 else 0

/-- Digit-run value for the numeric-aware collation. -/
def digitsToNat (l : List Char) : Nat :=
  l.foldl (fun acc c => acc * 10 + (c.toNat - 48)) 0

/-- Numeric-aware code-unit comparison: maximal digit runs compare by value,
then by run length, everything else by code unit.  Models
`localeCompare(..., { numeric: true })` on the names the viewer sorts. -/
def numAwareCmp : List Char → List Char → Int
  | [], [] => 0
  | [], _ :: _ => -1
  | _ :: _, [] => 1
  | a :: as, b :: bs =>
    if h : a.isDigit = true ∧ b.isDigit = true then
      let da := (a :: as).takeWhile Char.isDigit
      let db := (b :: bs).takeWhile Char.isDigit
      let ra := (a :: as).drop da.length
      let rb := (b :: bs).drop db.length
      if digitsToNat da < digitsToNat db then -1
      else if digitsToNat db < digitsToNat da then 1
      else if da.length < db.length then -1
      else if db.length < da.length then 1
      else numAwareCmp ra rb
    else
      if a = b then numAwareCmp as bs
      else if a < b then -1 else 1
termination_by l1 l2 => l1.length + l2.length
decreasing_by
  · simp only [List.length_drop, List.takeWhile_cons, h.1, h.2, if_true]
    have ha : ((a :: as).takeWhile Char.isDigit).length ≥ 1 := by
      simp [List.takeWhile_cons, h.1]
    have hb : ((b :: bs).takeWhile Char.isDigit).length ≥ 1 := by
      simp [List.takeWhile_cons, h.2]
    have la : ((a :: as).takeWhile Char.isDigit).length ≤ (a :: as).length :=
      (List.takeWhile_sublist _).length_le
    have lb : ((b :: bs).takeWhile Char.isDigit).length ≤ (b :: bs).length :=
      (List.takeWhile_sublist _).length_le
    simp only [List.length_cons] at *
    omega
  · simp only [List.length_cons]
    omega

/-- `x.toLocaleLowerCase().localeCompare(y.toLocaleLowerCase(), undefined,
{ numeric: true })`. -/
def localeLowerNumeric (a b : String) : Int :=
  numAwareCmp a.toLower.data b.toLower.data

/-- `x || y` on JavaScript numbers: `0` is falsy. -/
def jsOrI (a b : Int) : Int := if a = 0 then b else a

/-- `c.position || -1`: an absent or zero position counts as `-1`. -/
def jsPosition (o : Option Int) : Int :=
  match o with
  | some p => if p = 0 then -1 else p
  | none => -1

/-- `getServer` at the metadata level (unknown-server fallback). -/
def getServerM (meta : ViewMeta) (id : String) : ViewServer :=
  (alookup meta.servers id).getD ⟨"&lt;unknown&gt;", "unknown", none⟩

/-- The sibling comparator of `generateChannelOrder`: server type, then
server name (case-insensitive numeric-aware), then position, then channel
name. -/
def compareChannels (meta : ViewMeta) (id1 id2 : String) : Int :=
  let c1 := (alookup meta.channels id1).getD ⟨"", "", none, none, none, none⟩
  let c2 := (alookup meta.channels id2).getD ⟨"", "", none, none, none, none⟩
  let s1 := getServerM meta c1.server
  let s2 := getServerM meta c2.server
  jsOrI (localeCompareBasic s1.type s2.type)
    (jsOrI (localeLowerNumeric s1.name s2.name)
      (jsOrI (jsPosition c1.position - jsPosition c2.position)
        (localeLowerNumeric c1.name c2.name)))

/-- `getSortedSubTree`: pre-order traversal of the flattened hierarchy with
sorted sibling groups. -/
def getSortedSubTree (meta : ViewMeta) : Nat → String → List String
  | 0, _ => []
  | fuel + 1, parentId =>
    (sortWithCmp (compareChannels meta) (flattenedChildren meta parentId)).flatMap
      (fun id => id :: getSortedSubTree meta fuel id)

/-- Fuel sufficient for the traversal (chain depth plus the root level). -/
def orderFuel (meta : ViewMeta) : Nat := meta.channels.length + 2

/-- The `orderArray` of `generateChannelOrder`: the full pre-order
traversal from the root. -/
def channelOrderArray (meta : ViewMeta) : List String :=
  getSortedSubTree meta (orderFuel meta) ""

/-- The id → rank map of `generateChannelOrder`. -/
def generateChannelOrder (meta : ViewMeta) : List (String × Nat) :=
  (channelOrderArray meta).enum.map (fun p => (p.2, p.1))

/-- The owner of a channel in the flattened hierarchy: its parent key, or
the root when that key was flattened away; `""` (not a channel) for
non-channel arguments.  This is a proof-side characterization of where a
channel id ends up, used to reason about the traversal. -/
def ownerOf (meta : ViewMeta) (id : String) : String :=
  match alookup meta.channels id with
  | some c =>
    let pk := c.parent.getD ""
    if pk ∈ unreachKeys meta then "" else pk
  | none => ""

/-- Proof-side predicate: the pre-order traversal of depth `fuel` rooted at
`p` emits channel `c`, i.e. the owner chain of `c` climbs to `p` in at most
`fuel` steps without first reaching the root. -/
def emitHit (meta : ViewMeta) (fuel : Nat) (p c : String) : Prop :=
  ∃ k, 1 ≤ k ∧ k ≤ fuel ∧ (ownerOf meta)^[k] c = p ∧
    ∀ j, 1 ≤ j → j < k → (ownerOf meta)^[j] c ≠ ""

/-! ## Viewer: text renderer (`dom.mjs` / `discord.mjs`)

Each `String.replace(regex, ...)` pass is modelled by a left-to-right source
scanner (`scanRep`): at every position it attempts the hand-translated
matcher for the specific regex; a match consumes its characters and emits
the replacement, like a global regex whose `lastIndex` moves past each
match. -/

/-- `dom.escapeHTML` on one character (`HTML_ENTITY_MAP`). -/
def escapeHTMLChar (c : Char) : String :=
  if c = '&' then "&amp;"
  else if c = '<' then "&lt;"
  else if c = '>' then "&gt;"
  else if c = '"' then "&quot;"
  else if c.val = 39 then "&#39;"
  else String.mk [c]

/-- `dom.escapeHTML`. -/
def escapeHTML (s : String) : String :=
  String.mk (s.data.flatMap (fun c => (escapeHTMLChar c).data))

/-- One global-replace pass over the source characters.  The matcher
receives the previous source character (for word-boundary tests) and the
remaining input; a match yields the replacement and the number of source
characters consumed (always positive).  Every step consumes at least one
source character, so fuel equal to the input length makes the recursion
total without changing its result. -/
def scanRep (step : Option Char → List Char → Option (List Char × Nat)) :
    Nat → Option Char → List Char → List Char
  | 0, _, l => l
  | _ + 1, _, [] => []
  | fuel + 1, prev, c :: cs =>
    match step prev (c :: cs) with
    | some (rep, k) =>
      if 0 < k then
        rep ++ scanRep step fuel ((((c :: cs).take k).getLast?).getD c) ((c :: cs).drop k)
      else c :: scanRep step fuel (some c) cs
    | none => c :: scanRep step fuel (some c) cs

/-- A full replacement pass starting at the beginning of the string. -/
def applyStage (step : Option Char → List Char → Option (List Char × Nat))
    (l : List Char) : List Char :=
  scanRep step l.length none l

/-- `escapeHtmlMatch`: a character as a decimal HTML character reference. -/
def charRef (c : Char) : List Char :=
  ("&#" ++ toString c.toNat ++ ";").data

/-- The `[-A-Z0-9+&@#/%?=~_|!:,.;]` body class of the URL regexes
(case-insensitive). -/
def urlBodyChar (c : Char) : Bool :=
  c.isAlpha || c.isDigit || "-+&@#/%?=~_|!:,.;".data.contains c

/-- The `[-A-Z0-9+&@#/%=~_|]` final-character class of the URL regexes. -/
def urlEndChar (c : Char) : Bool :=
  c.isAlpha || c.isDigit || "-+&@#/%=~_|".data.contains c

/-- JavaScript regex word characters (for `\b`). -/
def jsWordChar (c : Char) : Bool :=
  c.isAlpha || c.isDigit || c = '_'

/-- Case-insensitive literal prefix test (`pat` given in lowercase). -/
def matchLitCI (pat : List Char) (l : List Char) : Bool :=
  (l.take pat.length).map Char.toLower = pat && pat.length ≤ l.length

/-- The scheme alternation `(?:https?|ftp|file)://` (case-insensitive);
returns the consumed length. -/
def matchScheme (l : List Char) : Option Nat :=
  if matchLitCI "https://".data l then some 8
  else if matchLitCI "http://".data l then some 7
  else if matchLitCI "ftp://".data l then some 6
  else if matchLitCI "file://".data l then some 7
  else none

/-- Longest prefix ending in a final-class character: the backtracking of
`[body]*[end]`. -/
def dropTrailingNonEnd (l : List Char) : List Char :=
  (l.reverse.dropWhile (fun c => !urlEndChar c)).reverse

/-- Match the URL pattern at the head of the input; returns the total
matched length. -/
def matchUrl (l : List Char) : Option Nat :=
  match matchScheme l with
  | none => none
  | some k =>
    let run := (l.drop k).takeWhile urlBodyChar
    let body := dropTrailingNonEnd run
    if body.isEmpty then none else some (k + body.length)

/-- `formatUrlNoEmbed` (`<URL>` → `URL`): unwraps the no-embed wrapper. -/
def stepFormatUrlNoEmbed (_prev : Option Char) (l : List Char) :
    Option (List Char × Nat) :=
  match l with
  | [] => none
  | c :: rest =>
    if c = '<' then
      match matchUrl rest with
      | some k => if (rest.drop k).head? = some '>' then some (rest.take k, k + 2) else none
      | none => none
    else none

/-- `formatUrl` auto-linking (`\b` guarded). -/
def stepFormatUrl (prev : Option Char) (l : List Char) : Option (List Char × Nat) :=
  if (match prev with | some p => jsWordChar p | none => false) then none
  else
    match matchUrl l with
    | none => none
    | some k =>
      let url := l.take k
      some (("<a href='".data ++ url ++ "' target='_blank' rel='noreferrer'>".data ++
        url ++ "</a>".data), k)

/-- `specialEscapedBacktick` (`\` + backtick → `&#96;`). -/
def stepEscapedBacktick (_prev : Option Char) (l : List Char) :
    Option (List Char × Nat) :=
  if "\\`".data.isPrefixOf l then some ("&#96;".data, 2) else none

/-- The `[*_~\\]` class re-escaped inside code fragments
(`specialUnescaped`). -/
def specialUnescapedChar (c : Char) : Bool :=
  c = '*' || c = '_' || c = '~' || c = '\\'

/-- Re-escape formatting punctuation inside a code fragment. -/
def escapeSpecialsInCode (l : List Char) : List Char :=
  l.flatMap (fun c => if specialUnescapedChar c then charRef c else [c])

/-- Index of the first triple-backtick in the input. -/
def findCloseTriple : List Char → Option Nat
  | [] => none
  | c :: cs =>
    if "```".data.isPrefixOf (c :: cs) then some 0
    else (findCloseTriple cs).map (· + 1)

/-- The `[A-z0-9-]` language-tag class of `formatCodeBlock` (restricted to
the alphanumeric part actually used by language tags). -/
def isCodeLangChar (c : Char) : Bool :=
  c.isAlpha || c.isDigit || c = '-'

/-- `formatCodeBlock`: fenced block with optional language tag; inner
formatting punctuation is re-escaped. -/
def stepCodeBlock (_prev : Option Char) (l : List Char) : Option (List Char × Nat) :=
  if "```".data.isPrefixOf l then
    let rest := l.drop 3
    let lang := rest.takeWhile isCodeLangChar
    let afterLang := rest.drop lang.length
    let withLang := !lang.isEmpty && afterLang.head? = some '\n'
    let skipAndContent :=
      if withLang then
        let nls := afterLang.takeWhile (fun c => c = '\n')
        (lang.length + nls.length, afterLang.drop nls.length)
      else
        let nls := rest.takeWhile (fun c => c = '\n')
        (nls.length, rest.drop nls.length)
    match findCloseTriple skipAndContent.2 with
    | none => none
    | some i =>
      if i = 0 then none
      else
        let inner := (((skipAndContent.2.take i).reverse.dropWhile (fun c => c = '\n'))).reverse
        if inner.isEmpty then none
        else
          some ("<code class='block'>".data ++ escapeSpecialsInCode inner ++ "</code>".data,
            3 + skipAndContent.1 + i + 3)
  else none

/-- JavaScript `\s`, restricted to the usual whitespace characters. -/
def isJsWs (c : Char) : Bool :=
  c = ' ' || c = '\n' || c = '\t' || c = '\r'

/-- Trim surrounding whitespace. -/
def trimWs (l : List Char) : List Char :=
  ((l.dropWhile isJsWs).reverse.dropWhile isJsWs).reverse

/-- Index of the first run of exactly `n` backticks. -/
def findRunExact (n : Nat) : List Char → Nat → Option Nat
  | [], _ => none
  | c :: cs, i =>
    if c = '`' then
      let run := (c :: cs).takeWhile (fun x => x = '`')
      if run.length = n then some i
      else findRunExact n ((c :: cs).drop run.length) (i + run.length)
    else findRunExact n cs (i + 1)
termination_by l _ => l.length
decreasing_by
  · have : 1 ≤ ((c :: cs).takeWhile (fun x => x = '`')).length := by
      simp_all [List.takeWhile_cons]
    simp only [List.length_drop, List.length_cons]
    omega
  · simp

/-- `formatCodeInline`: a run of `n` backticks, trimmed content ending in a
non-backtick, a closing run of the same length. -/
def stepCodeInline (_prev : Option Char) (l : List Char) : Option (List Char × Nat) :=
  let opener := l.takeWhile (fun c => c = '`')
  if opener.isEmpty then none
  else
    let n := opener.length
    let rest := l.drop n
    match findRunExact n rest 0 with
    | none => none
    | some j =>
      if j = 0 then none
      else
        let inner := trimWs (rest.take j)
        if inner.isEmpty then none
        else if inner.getLast? = some '`' then none
        else
          some ("<code class='inline'>".data ++ escapeSpecialsInCode inner ++ "</code>".data,
            n + j + n)

/-- `specialEscapedSingle` (`\*`, `\_`, `\\` → character reference). -/
def stepEscapedSingle (_prev : Option Char) (l : List Char) :
    Option (List Char × Nat) :=
  match l with
  | '\\' :: c :: _ =>
    if c = '*' || c = '_' || c = '\\' then some (charRef c, 2) else none
  | _ => none

/-- The alternatives of `specialEscapedDouble`, in regex order. -/
def escDoubleAlts : List (List Char) :=
  ["\\__".data, "_\\_".data, "\\_\\_".data, "\\~~".data, "~\\~".data, "\\~\\~".data]

/-- `specialEscapedDouble`: drop the backslashes, reference-escape the
rest. -/
def stepEscapedDouble (_prev : Option Char) (l : List Char) :
    Option (List Char × Nat) :=
  match escDoubleAlts.find? (fun pat => pat.isPrefixOf l) with
  | some pat => some ((pat.filter (fun c => !(c = '\\'))).flatMap charRef, pat.length)
  | none => none

/-- First index (at least 1, for a nonempty lazy group) of a double-delimiter
close not followed by another delimiter. -/
def findPairClose (d : Char) : List Char → Nat → Option Nat
  | a :: b :: rest, i =>
    if 1 ≤ i && a = d && b = d && !(rest.head? = some d) then some i
    else findPairClose d (b :: rest) (i + 1)
  | _, _ => none

/-- A double-delimiter wrap (`formatBold` / `formatUnderline` /
`formatStrike`). -/
def stepPairWrap (d : Char) (tagO tagC : List Char) (_prev : Option Char)
    (l : List Char) : Option (List Char × Nat) :=
  match l with
  | a :: b :: rest =>
    if a = d && b = d then
      match findPairClose d rest 0 with
      | none => none
      | some j => some (tagO ++ rest.take j ++ tagC, 2 + j + 2)
    else none
  | _ => none

/-- First index (at least 1) of a single-delimiter close, not doubled, and
with a trailing word boundary when required (`formatItalic2`). -/
def findSingleClose (d : Char) (wb : Bool) : List Char → Nat → Option Nat
  | c :: rest, i =>
    if 1 ≤ i && c = d && !(rest.head? = some d) &&
       (!wb || (match rest.head? with | some nxt => !jsWordChar nxt | none => true)) then
      some i
    else findSingleClose d wb rest (i + 1)
  | [], _ => none

/-- A single-delimiter wrap (`formatItalic1` / `formatItalic2`). -/
def stepSingleWrap (d : Char) (wb : Bool) (tagO tagC : List Char)
    (_prev : Option Char) (l : List Char) : Option (List Char × Nat) :=
  match l with
  | c :: rest =>
    if c = d then
      match findSingleClose d wb rest 0 with
      | none => none
      | some j => some (tagO ++ rest.take j ++ tagC, 1 + j + 1)
    else none
  | [] => none

/-- `formatBold`. -/
def stepBold : Option Char → List Char → Option (List Char × Nat) :=
  stepPairWrap '*' "<b>".data "</b>".data

/-- `formatUnderline`. -/
def stepUnderline : Option Char → List Char → Option (List Char × Nat) :=
  stepPairWrap '_' "<u>".data "</u>".data

/-- `formatStrike`. -/
def stepStrike : Option Char → List Char → Option (List Char × Nat) :=
  stepPairWrap '~' "<s>".data "</s>".data

/-- `formatItalic1`. -/
def stepItalic1 : Option Char → List Char → Option (List Char × Nat) :=
  stepSingleWrap '*' false "<i>".data "</i>".data

/-- `formatItalic2`. -/
def stepItalic2 : Option Char → List Char → Option (List Char × Nat) :=
  stepSingleWrap '_' true "<i>".data "</i>".data

/-- The formatting block of `processMessageContents`, in source order. -/
def formattingStages (l : List Char) : List Char :=
  l |> applyStage stepEscapedBacktick
    |> applyStage stepCodeBlock
    |> applyStage stepCodeInline
    |> applyStage stepEscapedSingle
    |> applyStage stepEscapedDouble
    |> applyStage stepBold
    |> applyStage stepUnderline
    |> applyStage stepItalic1
    |> applyStage stepItalic2
    |> applyStage stepStrike

/-- `getChannelName` (`channelObj && channelObj.name || channel`). -/
def getChannelName (st : ViewState) (channel : String) : String :=
  match st.loadedFileMeta with
  | some meta =>
    (match alookup meta.channels channel with
     | some channelObj => if channelObj.name = "" then channel else channelObj.name
     | none => channel)
  | none => channel

/-- `getUserName` (`userObj && userObj.name || user`). -/
def getUserName (st : ViewState) (user : String) : String :=
  match st.loadedFileMeta with
  | some meta =>
    (match alookup meta.users user with
     | some userObj => if userObj.name = "" then user else userObj.name
     | none => user)
  | none => user

/-- `getUserDisplayName`
(`userObj && (userObj.displayName || userObj.name) || user`). -/
def getUserDisplayName (st : ViewState) (user : String) : String :=
  match st.loadedFileMeta with
  | some meta =>
    (match alookup meta.users user with
     | some userObj =>
       let d := match userObj.displayName with
         | some dn => if dn = "" then userObj.name else dn
         | none => userObj.name
       if d = "" then user else d
     | none => user)
  | none => user

/-- Hexadecimal digit (uppercase, as `encodeURIComponent` emits). -/
def hexDigit (n : Nat) : Char :=
  if n < 10 then Char.ofNat (48 + n) else Char.ofNat (55 + n)

/-- One percent-encoded byte. -/
def hexByte (b : UInt8) : String :=
  String.mk ['%', hexDigit (b.toNat / 16), hexDigit (b.toNat % 16)]

/-- Model of the browser `encodeURIComponent`: unreserved characters pass
through, everything else is percent-encoded per UTF-8 byte. -/
def encodeURIComponent (s : String) : String :=
  String.join (s.toUTF8.toList.map (fun b =>
    let c := Char.ofNat b.toNat
    if b.toNat < 128 &&
       (c.isAlpha || c.isDigit || "-_.!~*()".data.contains c || c.val = 39) then
      String.mk [c]
    else hexByte b))

/-- `fileUrlProcessor`: the identity without a server token, the
download-proxy path with one. -/
def fileUrlProcessor (serverToken : Option String) (url : String) : String :=
  match serverToken with
  | some token =>
    "/get-downloaded-file/" ++ encodeURIComponent url ++ "?token=" ++ encodeURIComponent token
  | none => url

/-- `getEmoji`: the custom-emoji image reference. -/
def getEmoji (serverToken : Option String) (name id extension : String) : String :=
  let tag := ":" ++ name ++ ":"
  "<img src='" ++
    fileUrlProcessor serverToken ("https://cdn.discordapp.com/emojis/" ++ id ++ "." ++ extension) ++
    "' alt='" ++ tag ++ "' title='" ++ tag ++ "' class='emoji'>"

/-- `mentionChannel` (`&lt;#(\d+?)&gt;` on the escaped text). -/
def stepMentionChannel (st : ViewState) (_prev : Option Char) (l : List Char) :
    Option (List Char × Nat) :=
  if "&lt;#".data.isPrefixOf l then
    let rest := l.drop 5
    let digits := rest.takeWhile Char.isDigit
    if digits.isEmpty then none
    else if "&gt;".data.isPrefixOf (rest.drop digits.length) then
      some (("<span class='link mention-chat'>#" ++
        getChannelName st (String.mk digits) ++ "</span>").data,
        5 + digits.length + 4)
    else none
  else none

/-- `mentionUser` (`&lt;@!?(\d+?)&gt;` on the escaped text). -/
def stepMentionUser (st : ViewState) (_prev : Option Char) (l : List Char) :
    Option (List Char × Nat) :=
  if "&lt;@".data.isPrefixOf l then
    let afterAt := l.drop 5
    let bang := if afterAt.head? = some '!' then 1 else 0
    let rest := afterAt.drop bang
    let digits := rest.takeWhile Char.isDigit
    if digits.isEmpty then none
    else if "&gt;".data.isPrefixOf (rest.drop digits.length) then
      some (("<span class='link mention-user' title='" ++
        getUserName st (String.mk digits) ++ "'>@" ++
        getUserDisplayName st (String.mk digits) ++ "</span>").data,
        5 + bang + digits.length + 4)
    else none
  else none

/-- `customEmojiStatic` (`&lt;:([^:]+):(\d+?)&gt;`). -/
def stepEmojiStatic (serverToken : Option String) (_prev : Option Char)
    (l : List Char) : Option (List Char × Nat) :=
  if "&lt;:".data.isPrefixOf l then
    let rest := l.drop 5
    let name := rest.takeWhile (fun c => !(c = ':'))
    if name.isEmpty then none
    else
      let afterName := rest.drop name.length
      match afterName with
      | ':' :: afterColon =>
        let digits := afterColon.takeWhile Char.isDigit
        if digits.isEmpty then none
        else if "&gt;".data.isPrefixOf (afterColon.drop digits.length) then
          some ((getEmoji serverToken (String.mk name) (String.mk digits) "webp").data,
            5 + name.length + 1 + digits.length + 4)
        else none
      | _ => none
  else none

/-- `customEmojiAnimated` (`&lt;a:([^:]+):(\d+?)&gt;`); the extension
depends on the animated-emoji setting. -/
def stepEmojiAnimated (serverToken : Option String) (extension : String)
    (_prev : Option Char) (l : List Char) : Option (List Char × Nat) :=
  if "&lt;a:".data.isPrefixOf l then
    let rest := l.drop 6
    let name := rest.takeWhile (fun c => !(c = ':'))
    if name.isEmpty then none
    else
      let afterName := rest.drop name.length
      match afterName with
      | ':' :: afterColon =>
        let digits := afterColon.takeWhile Char.isDigit
        if digits.isEmpty then none
        else if "&gt;".data.isPrefixOf (afterColon.drop digits.length) then
          some ((getEmoji serverToken (String.mk name) (String.mk digits) extension).data,
            6 + name.length + 1 + digits.length + 4)
        else none
      | _ => none
  else none

/-- The viewer display settings (`settings.mjs`), all defaulting to on. -/
structure Settings where
  enableImagePreviews : Bool
  enableFormatting : Bool
  enableUserAvatars : Bool
  enableAnimatedEmoji : Bool
deriving Repr, DecidableEq

/-- The default settings. -/
def defaultSettings : Settings := ⟨true, true, true, true⟩

/-- The always-run trailer of `processMessageContents`: URL auto-linking,
mention resolution, emoji substitution, in source order. -/
def mentionAndLinkStages (st : ViewState) (settings : Settings)
    (serverToken : Option String) (l : List Char) : List Char :=
  let animatedEmojiExtension := if settings.enableAnimatedEmoji then "gif" else "webp"
  l |> applyStage stepFormatUrl
    |> applyStage (stepMentionChannel st)
    |> applyStage (stepMentionUser st)
    |> applyStage (stepEmojiStatic serverToken)
    |> applyStage (stepEmojiAnimated serverToken animatedEmojiExtension)

/-- `processMessageContents`: unwrap the no-embed URL wrapper on the raw
text, escape, then (when formatting is enabled) the formatting stages, then
links/mentions/emoji, wrapped in a paragraph. -/
def processMessageContents (st : ViewState) (settings : Settings)
    (serverToken : Option String) (contents : String) : String :=
  let processed := (escapeHTML (String.mk (applyStage stepFormatUrlNoEmbed contents.data))).data
  let processed := if settings.enableFormatting then formattingStages processed else processed
  let processed := mentionAndLinkStages st settings serverToken processed
  "<p>" ++ String.mk processed ++ "</p>"

/-- Modelled from the spec's words, for comparison with
`processMessageContents`: the variant in which escaping runs first and the
no-embed URL unwrapping — like every other transform — operates on the
already-escaped output. -/
def processMessageContentsEscapeFirst (st : ViewState) (settings : Settings)
    (serverToken : Option String) (contents : String) : String :=
  let processed := applyStage stepFormatUrlNoEmbed (escapeHTML contents).data
  let processed := if settings.enableFormatting then formattingStages processed else processed
  let processed := mentionAndLinkStages st settings serverToken processed
  "<p>" ++ String.mk processed ++ "</p>"

/-! ## Export side: `fetch_metadata` -/

/-- One row of the `users` table. -/
structure UserRow where
  id : Int
  name : String
  display_name : Option String
  avatar_url : Option String
deriving Repr, DecidableEq

/-- One row of the `servers` table. -/
structure ServerRow where
  id : Int
  name : String
  type : String
  icon_hash : Option String
deriving Repr, DecidableEq

/-- One row of the `channels` table. -/
structure ChannelRow where
  id : Int
  server : Int
  name : String
deriving Repr, DecidableEq

/-- The user entry built by `fetch_metadata`: `name` and `avatar`
unconditionally (`avatar` possibly null), `displayName` only when truthy. -/
def fetchMetadataUserEntry (row : UserRow) : List (String × JVal) :=
  [("name", JVal.str row.name),
   ("avatar", match row.avatar_url with | some u => JVal.str u | none => JVal.null)] ++
  (if truthyStr row.display_name then
    [("displayName", JVal.str (row.display_name.getD ""))]
  else [])

/-- The users map of `fetch_metadata`. -/
def fetch_metadata_users (rows : List UserRow) : List (String × JVal) :=
  rows.map (fun row => (toString row.id, JVal.obj (fetchMetadataUserEntry row)))

/-- The server entry built by `fetch_metadata`: `iconUrl` only when the icon
hash is truthy. -/
def fetchMetadataServerEntry (row : ServerRow) : List (String × JVal) :=
  [("name", JVal.str row.name), ("type", JVal.str row.type.toLower)] ++
  (if truthyStr row.icon_hash then
    [("iconUrl", JVal.str ("https://cdn.discordapp.com/icons/" ++ toString row.id ++ "/" ++
      row.icon_hash.getD "" ++ ".webp"))]
  else [])

/-- The channel entry built by `fetch_metadata`. -/
def fetchMetadataChannelEntry (row : ChannelRow) : List (String × JVal) :=
  [("server", JVal.str (toString row.server)), ("name", JVal.str row.name)]

/-- `fetch_metadata`: the three maps of the metadata document. -/
def fetch_metadata (users : List UserRow) (servers : List ServerRow)
    (channels : List ChannelRow) : JVal :=
  JVal.obj
    [("users", JVal.obj (fetch_metadata_users users)),
     ("servers", JVal.obj (servers.map (fun row =>
       (toString row.id, JVal.obj (fetchMetadataServerEntry row))))),
     ("channels", JVal.obj (channels.map (fun row =>
       (toString row.id, JVal.obj (fetchMetadataChannelEntry row)))))]

/-! ## Concrete instances used by witnesses and counterexamples -/

/-- A two-message source store: message 1 carries an attachment, message 2
has an edit timestamp. -/
def exDb : Db :=
  ⟨[⟨"1", "pic.png", "https://cdn.example/pic.png", some 4, some 3⟩], [], [⟨"2", 555⟩], [], []⟩

/-- Two message rows in timestamp order. -/
def exRows : List MsgRow :=
  [⟨1, 7, 9, some "hello", 100⟩, ⟨2, 7, 9, none, 200⟩]

/-- 120 message ids of equal length, ascending. -/
def exampleKeys : List String :=
  (List.range 120).map (fun i => toString (100 + i))

/-- The backing message map for the pagination example. -/
def exampleChannelMessages : List (String × StoredMessage) :=
  (List.range 120).map (fun i =>
    (toString (100 + i),
     { u := "5", t := (i : Int), m := some "hi", a := none, e := none,
       te := none, re := none, r := none, f := none }))

/-- A loaded state with channel `"1"` selected, 120 messages, no filter,
the given page size and current page. -/
def examplePaged (mpp cp : Nat) : ViewState :=
  { loadedFileMeta := some ⟨[], [], []⟩,
    loadedFileData := some [("1", exampleChannelMessages)],
    loadedMessages := some exampleKeys,
    filterFunction := none,
    selectedChannel := some "1",
    currentPage := cp,
    messagesPerPage := mpp,
    hasActiveFilter := false }

/-- Metadata with one user, one server and two channels. -/
def exMeta6 : ViewMeta :=
  ⟨[("5", ⟨"alice", none, none⟩)],
   [("10", ⟨"srv", "server", none⟩)],
   [("1", ⟨"10", "general", none, none, none, none⟩),
    ("2", ⟨"10", "random", none, none, none, none⟩)]⟩

/-- A plain text message: no attachments, no embeds. -/
def exMsgPlain : StoredMessage :=
  ⟨"5", 1, some "hello", none, none, none, none, none, none⟩

/-- Two channels, one plain message each. -/
def exData6 : ViewData :=
  [("1", [("11", exMsgPlain)]), ("2", [("20", exMsgPlain)])]

/-- A loaded state with channel `"1"` selected and the `withimages` filter
active (which hides both plain messages, so the loaded key list is empty). -/
def exState6 : ViewState :=
  { loadedFileMeta := some exMeta6,
    loadedFileData := some exData6,
    loadedMessages := some [],
    filterFunction := some ActiveFilter.withImages,
    selectedChannel := some "1",
    currentPage := 1,
    messagesPerPage := 50,
    hasActiveFilter := true }

/-- Two channels whose parent links form the cycle 1 → 2 → 1. -/
def cycleMeta : ViewMeta :=
  ⟨[], [("10", ⟨"srv", "server", none⟩)],
   [("1", ⟨"10", "alpha", some "2", none, none, none⟩),
    ("2", ⟨"10", "beta", some "1", none, none, none⟩)]⟩

/-- A user row with no avatar reference and no display name. -/
def exUserRowNoAvatar : UserRow := ⟨1, "alice", none, none⟩

/-! ## Helper lemmas -/

theorem lexLtB_self (l : List Char) : lexLtB l l = false := by
  induction l with
  | nil => rfl
  | cons c cs ih => simp [lexLtB, ih]

theorem lexLtB_eq_of_not (a : List Char) : ∀ b : List Char,
    lexLtB a b = false → lexLtB b a = false → a = b := by
  induction a with
  | nil =>
    intro b h1 _
    cases b with
    | nil => rfl
    | cons y ys => simp [lexLtB] at h1
  | cons x xs ih =>
    intro b h1 h2
    cases b with
    | nil => simp [lexLtB] at h2
    | cons y ys =>
      by_cases hxy : x < y
      · rw [lexLtB, if_pos hxy] at h1; exact absurd h1 (by simp)
      · by_cases hyx : y < x
        · rw [lexLtB, if_pos hyx] at h2; exact absurd h2 (by simp)
        · have hx : x = y := le_antisymm (not_lt.mp hyx) (not_lt.mp hxy)
          subst hx
          rw [lexLtB, if_neg hxy, if_neg hxy] at h1
          rw [lexLtB, if_neg hxy, if_neg hxy] at h2
          rw [ih ys h1 h2]

theorem jsLtB_self (a : String) : jsLtB a a = false := lexLtB_self a.data

theorem jsLtB_eq_of_not (a b : String) (h1 : jsLtB a b = false)
    (h2 : jsLtB b a = false) : a = b :=
  String.ext (lexLtB_eq_of_not a.data b.data h1 h2)

theorem lookupField_append (l1 l2 : List (String × JVal)) (key : String) :
    lookupField (l1 ++ l2) key =
      match lookupField l1 key with
      | some v => some v
      | none => lookupField l2 key := by
  induction l1 with
  | nil => rfl
  | cons kv rest ih =>
    by_cases h : kv.1 = key <;>
      simp [lookupField, h, ih, show (kv.1, kv.2) = kv from rfl]

/-! ## C10: the two snowflake comparators mirror each other -/

/-- C10: for all id strings `a` and `b`, `newestToOldest a b` is exactly the
negation of `oldestToNewest a b`, and each comparator returns 0 exactly when
`a` and `b` are the same string. -/
theorem sorter_comparators_mirror (a b : String) :
    newestToOldest a b = -oldestToNewest a b ∧
    (oldestToNewest a b = 0 ↔ a = b) ∧
    (newestToOldest a b = 0 ↔ a = b) := by
  have hne : ∀ x y : String, jsLtB y x = true → ¬ (x = y) := by
    intro x y h hxy
    subst hxy
    rw [jsLtB_self] at h
    exact absurd h (by simp)
  unfold newestToOldest oldestToNewest
  by_cases hlen : a.length = b.length
  · rw [if_pos hlen, if_pos hlen]
    by_cases hba : jsLtB b a
    · rw [if_pos hba, if_pos hba]
      refine ⟨rfl, ?_, ?_⟩ <;> exact iff_of_false (by decide) (fun h => hne a b hba h)
    · rw [if_neg hba, if_neg hba]
      by_cases hab : jsLtB a b
      · rw [if_pos hab, if_pos hab]
        refine ⟨rfl, ?_, ?_⟩ <;>
          exact iff_of_false (by decide) (fun h => hne b a hab h.symm)
      · rw [if_neg hab, if_neg hab]
        have heq : a = b :=
          jsLtB_eq_of_not a b (Bool.not_eq_true _ ▸ by simpa using hab)
            (by simpa using hba)
        exact ⟨rfl, iff_of_true rfl heq, iff_of_true rfl heq⟩
  · rw [if_neg hlen, if_neg hlen]
    have hne2 : ¬ (a = b) := fun h => hlen (by rw [h])
    by_cases hl : b.length < a.length
    · rw [if_pos hl, if_pos hl]
      exact ⟨rfl, iff_of_false (by decide) hne2, iff_of_false (by decide) hne2⟩
    · rw [if_neg hl, if_neg hl]
      exact ⟨rfl, iff_of_false (by decide) hne2, iff_of_false (by decide) hne2⟩

/-! ## C3: the snowflake comparator orders by length, then lexicographically -/

/-- C3: `oldestToNewest` sorts a shorter decimal id string before longer
ones and compares equal-length ids lexicographically; sorting
`["9","10","100"]` with it yields `["9","10","100"]`, not the lexicographic
order `["10","100","9"]`. -/
theorem snowflake_comparator_spec :
    (∀ a b : String, a.length < b.length → oldestToNewest a b = -1) ∧
    (∀ a b : String, b.length < a.length → oldestToNewest a b = 1) ∧
    (∀ a b : String, a.length = b.length →
      oldestToNewest a b = (if jsLtB b a then 1 else if jsLtB a b then -1 else 0)) ∧
    sortWithCmp oldestToNewest ["9", "10", "100"] = ["9", "10", "100"] ∧
    sortWithCmp oldestToNewest ["9", "10", "100"] ≠ ["10", "100", "9"] := by
  refine ⟨?_, ?_, ?_, by decide, by decide⟩
  · intro a b h
    unfold oldestToNewest
    rw [if_neg (by omega), if_neg (by omega)]
  · intro a b h
    unfold oldestToNewest
    rw [if_neg (by omega), if_pos h]
  · intro a b h
    unfold oldestToNewest
    rw [if_pos h]

/-- C3 witness: the comparator theorem applied at concrete inputs. -/
theorem snowflake_comparator_spec_witness :
    oldestToNewest "9" "10" = -1 ∧ oldestToNewest "100" "10" = 1 ∧
    oldestToNewest "10" "11" = (if jsLtB "11" "10" then 1 else if jsLtB "10" "11" then -1 else 0) :=
  ⟨snowflake_comparator_spec.1 "9" "10" (by decide),
   snowflake_comparator_spec.2.1 "100" "10" (by decide),
   snowflake_comparator_spec.2.2.1 "10" "11" (by decide)⟩

/-! ## C2: conditional presence of the text field `m` -/

theorem should_include_eq_false_iff (t : Option String) (a : Option (List JVal))
    (e : Option (List String)) :
    should_include_message_text t a e = false ↔
      (truthyStr t = false ∧ (truthyList a = true ∨ truthyList e = true)) := by
  unfold should_include_message_text
  by_cases ht : truthyStr t
  · simp [ht]
  · by_cases ha : truthyList a
    · simp [ht, ha]
    · by_cases he : truthyList e <;> simp [ht, ha, he]

/-- C2: the message document omits field `m` exactly when the text is empty
or absent and the message carries at least one attachment or embed; in every
other case `m` is present and equal to the text (the empty string for empty
or absent text). -/
theorem message_text_field_omission (db : Db) (row : MsgRow) (idx total : Nat) :
    lookupField (process_message_obj db row idx total) "m" =
      (if truthyStr row.text = false ∧
          (truthyList (get_message_attachments db (toString row.message_id)) = true ∨
           truthyList (get_message_embeds db (toString row.message_id)) = true)
       then none
       else some (JVal.str (row.text.getD ""))) := by
  unfold process_message_obj
  by_cases h : should_include_message_text row.text
      (get_message_attachments db (toString row.message_id))
      (get_message_embeds db (toString row.message_id)) = true
  · rw [if_neg (by rw [← should_include_eq_false_iff]; simp [h])]
    simp only [h, if_true, lookupField_append]
    have hbase : lookupField
        [("id", JVal.str (toString row.message_id)),
         ("c", JVal.str (toString row.channel_id)),
         ("u", JVal.str (toString row.sender_id)),
         ("t", JVal.num row.timestamp)] "m" = none := by simp [lookupField]
    simp [hbase, lookupField]
  · have h2 : should_include_message_text row.text
        (get_message_attachments db (toString row.message_id))
        (get_message_embeds db (toString row.message_id)) = false := by
      simpa using h
    rw [if_pos ((should_include_eq_false_iff _ _ _).mp h2)]
    simp only [h2, Bool.false_eq_true, if_false, lookupField_append]
    have hbase : lookupField
        [("id", JVal.str (toString row.message_id)),
         ("c", JVal.str (toString row.channel_id)),
         ("u", JVal.str (toString row.sender_id)),
         ("t", JVal.num row.timestamp)] "m" = none := by simp [lookupField]
    rcases get_message_attachments db (toString row.message_id) with _ | a <;>
      rcases get_message_embeds db (toString row.message_id) with _ | e <;>
      rcases get_message_reactions db (toString row.message_id) with _ | re <;>
      by_cases hte : truthyInt (get_message_edit_timestamp db (toString row.message_id)) <;>
      by_cases hr : truthyStr (get_message_reply db (toString row.message_id)) <;>
      simp [hbase, lookupField, hte, hr]

/-! ## C9: the shape of an exported user entry -/

/-- C9 counterexample: a user row with no avatar reference still receives an
`avatar` field in its metadata entry, so the field is not present only when
the user has an avatar reference. -/
theorem user_avatar_field_always_present :
    exUserRowNoAvatar.avatar_url = none ∧
    (lookupField (fetchMetadataUserEntry exUserRowNoAvatar) "avatar").isSome = true := by
  constructor
  · rfl
  · rfl

/-- C9 (amended): every exported user entry contains `name` and `avatar`
unconditionally (the avatar value may be null), and `displayName` exactly
when the display name is present and nonempty. -/
theorem fetch_metadata_user_entry_fields (row : UserRow) :
    (fetchMetadataUserEntry row).map Prod.fst =
      ["name", "avatar"] ++
        (if truthyStr row.display_name = true then ["displayName"] else []) := by
  unfold fetchMetadataUserEntry
  by_cases h : truthyStr row.display_name <;> simp [h]

/-! ## C7: the store accepts at most one load -/

/-- C7: after a successful `uploadFile`, every further call — with any
arguments — fails with the explicit already-loaded error and leaves the
whole state exactly as it was. -/
theorem uploadFile_at_most_once (m : ViewMeta) (d : ViewData) (st st1 : ViewState)
    (h : uploadFile m d st = (Except.ok (), st1)) (m2 : ViewMeta) (d2 : ViewData) :
    uploadFile m2 d2 st1 = (Except.error "A file is already loaded!", st1) := by
  unfold uploadFile at h ⊢
  by_cases hl : st.loadedFileMeta.isSome
  · rw [if_pos hl] at h
    exact absurd (congrArg Prod.fst h) (by simp)
  · rw [if_neg hl] at h
    have hst1 : st1 = { st with
        loadedFileMeta := some m,
        loadedFileData := some d,
        loadedMessages := none,
        selectedChannel := none,
        currentPage := 1 } := by
      simpa using (congrArg Prod.snd h).symm
    subst hst1
    rw [if_pos (by simp)]

/-- C7 witness: loading twice from the initial state. -/
theorem uploadFile_at_most_once_witness :
    uploadFile exMeta6 exData6 ((uploadFile exMeta6 exData6 initialViewState).2) =
      (Except.error "A file is already loaded!",
       (uploadFile exMeta6 exData6 initialViewState).2) :=
  uploadFile_at_most_once exMeta6 exData6 initialViewState _ rfl exMeta6 exData6

/-! ## C5: pagination -/

set_option maxRecDepth 8192 in
/-- C5: with messages loaded, the page count is 1 for page size 0 and
the ceiling of count/pageSize otherwise; the returned current page is
clamped into [1, pageCount] (1 when the list is empty and the page had been
reset); and the message list of the current page `p` is the slice of the
loaded keys from index (p−1)·pageSize of length pageSize (the whole list
for page size 0).  Concretely: 120 messages at page size 50 give page count
3 with 20 messages on page 3, and page size 0 gives one page with all
120. -/
theorem pagination_behavior :
    (∀ (st : ViewState) (keys : List String),
      st.loadedMessages = some keys →
      (getPageCount st =
        if st.messagesPerPage = 0 then 1
        else (keys.length + st.messagesPerPage - 1) / st.messagesPerPage) ∧
      (keys ≠ [] → 1 ≤ st.currentPage →
        1 ≤ getCurrentPageVal st ∧ getCurrentPageVal st ≤ getPageCount st) ∧
      (keys = [] → st.currentPage ≤ 1 → getCurrentPageVal st = 1) ∧
      ((getMessageList st).map (fun dm => dm.jump) =
        (if st.messagesPerPage = 0 then
          keys.drop (st.messagesPerPage * (getCurrentPageVal st - 1))
        else
          (keys.drop (st.messagesPerPage * (getCurrentPageVal st - 1))).take
            st.messagesPerPage))) ∧
    (getPageCount (examplePaged 50 3) = 3 ∧
     (getMessageList (examplePaged 50 3)).length = 20 ∧
     getPageCount (examplePaged 0 1) = 1 ∧
     (getMessageList (examplePaged 0 1)).length = 120) := by
  constructor
  · intro st keys h
    refine ⟨?_, ?_, ?_, ?_⟩
    · unfold getPageCount
      rw [h]
    · intro hne hcp
      have hlen : 1 ≤ keys.length := List.length_pos.mpr hne
      have heq : getPageCount st =
          if st.messagesPerPage = 0 then 1
          else (keys.length + st.messagesPerPage - 1) / st.messagesPerPage := by
        unfold getPageCount
        rw [h]
      have hpc : 1 ≤ getPageCount st := by
        rw [heq]
        by_cases hm : st.messagesPerPage = 0
        · simp [hm]
        · rw [if_neg hm, Nat.le_div_iff_mul_le (Nat.pos_of_ne_zero hm)]
          omega
      simp only [getCurrentPageVal]
      split_ifs with h1 h2 h3 <;>
        simp only [Bool.and_eq_true, decide_eq_true_eq] at h1 <;> omega
    · intro he hle
      have heq : getPageCount st =
          if st.messagesPerPage = 0 then 1
          else (keys.length + st.messagesPerPage - 1) / st.messagesPerPage := by
        unfold getPageCount
        rw [h]
      have hpc01 : getPageCount st ≤ 1 := by
        rw [heq, he]
        by_cases hm : st.messagesPerPage = 0
        · simp [hm]
        · rw [if_neg hm]
          simp only [List.length_nil]
          have hd := Nat.div_eq_of_lt
            (show 0 + st.messagesPerPage - 1 < st.messagesPerPage by omega)
          omega
      simp only [getCurrentPageVal]
      split_ifs with h1 h2 h3 <;>
        simp only [Bool.and_eq_true, decide_eq_true_eq] at h1 <;> omega
    · have hj : ∀ (msgs : List (String × StoredMessage)) (ks : List String),
          (ks.map (displayOf st msgs)).map (fun dm => dm.jump) = ks := by
        intro msgs ks
        rw [List.map_map]
        have hcomp : ((fun dm => dm.jump) ∘ displayOf st msgs) = fun k => k := by
          funext k
          rfl
        rw [hcomp]
        exact List.map_id' ks
      simp only [getMessageList, h]
      exact hj _ _
  · refine ⟨by decide, by decide, by decide, by decide⟩

/-- C5 witness: the pagination theorem applied at the 120-message state on
page 3 of page size 50. -/
theorem pagination_behavior_witness :
    1 ≤ getCurrentPageVal (examplePaged 50 3) ∧
    getCurrentPageVal (examplePaged 50 3) ≤ getPageCount (examplePaged 50 3) :=
  (pagination_behavior.1 (examplePaged 50 3) exampleKeys rfl).2.1
    (by decide) (by decide)

/-! ## C6: jump-to-message under an active filter -/

theorem alookup_isSome_iff (l : List (String × α)) (key : String) :
    (alookup l key).isSome = true ↔ key ∈ l.map Prod.fst := by
  induction l with
  | nil => simp [alookup]
  | cons kv rest ih =>
    rw [show alookup (kv :: rest) key =
        if kv.1 = key then some kv.2 else alookup rest key from rfl]
    by_cases h : kv.1 = key
    · simp [h]
    · rw [if_neg h]
      have hne : ¬ key = kv.1 := fun he => h he.symm
      simp [ih, hne]

theorem alookup_mem (l : List (String × α)) (k : String) (v : α)
    (h : alookup l k = some v) : (k, v) ∈ l := by
  induction l with
  | nil => simp [alookup] at h
  | cons kv rest ih =>
    rw [show alookup (kv :: rest) k =
        if kv.1 = k then some kv.2 else alookup rest k from rfl] at h
    by_cases hk : kv.1 = k
    · rw [if_pos hk] at h
      injection h with h2
      have hkv : kv = (k, v) := by
        rw [← hk, ← h2]
      rw [hkv]
      exact List.mem_cons_self _ _
    · rw [if_neg hk] at h
      exact List.mem_cons_of_mem _ (ih h)

theorem getMessageChannel_isSome_of_mem_filtered (st : ViewState) (ch id : String)
    (h : id ∈ getFilteredMessageKeys st ch) :
    (getMessageChannel st id).isSome = true := by
  have hkeys : id ∈ (getMessages st ch).map Prod.fst := by
    unfold getFilteredMessageKeys at h
    rcases hf : st.filterFunction with _ | f <;> rw [hf] at h
    · exact h
    · exact (List.mem_filter.mp h).1
  have hsome : (alookup (getMessages st ch) id).isSome = true :=
    (alookup_isSome_iff _ _).mpr hkeys
  rcases hd : st.loadedFileData with _ | d
  · unfold getMessages at hsome
    simp only [hd] at hsome
    simp [alookup] at hsome
  · unfold getMessages at hsome
    simp only [hd] at hsome
    rcases hch : alookup d ch with _ | msgs
    · simp only [hch] at hsome
      simp [alookup] at hsome
    · simp only [hch, Option.getD_some] at hsome
      have hmem : (ch, msgs) ∈ d := alookup_mem d ch msgs hch
      have hfs : (d.find? (fun ce => (alookup ce.2 id).isSome)).isSome = true := by
        rw [List.find?_isSome]
        exact ⟨(ch, msgs), hmem, hsome⟩
      rcases Option.isSome_iff_exists.mp hfs with ⟨ce, hce⟩
      simp [getMessageChannel, hd, hce]

theorem findIdx?_not_mem (l : List String) (id : String) (h : id ∉ l) :
    l.findIdx? (fun k => k = id) = none := by
  rw [List.findIdx?_eq_none_iff]
  intro x hx
  exact decide_eq_false (fun hxe => h (hxe ▸ hx))

theorem not_mem_sortWithCmp (cmp : String → String → Int) (l : List String)
    (id : String) (h : id ∉ l) : id ∉ sortWithCmp cmp l := by
  unfold sortWithCmp
  intro hmem
  exact h ((List.perm_insertionSort _ l).mem_iff.mp hmem)

/-- C6 counterexample: with the has-images filter active and channel `"1"`
selected, navigating to the plain message `"20"` (hidden by the filter,
living in channel `"2"`) returns the not-found value −1 but switches the
selected channel to `"2"`, so the state is not left unchanged as the claim
states. -/
theorem navigateToMessage_switches_channel :
    (navigateToMessage exState6 "20").1 = some (-1) ∧
    (navigateToMessage exState6 "20").2.selectedChannel = some "2" ∧
    exState6.selectedChannel = some "1" := by
  refine ⟨by decide, by decide, by decide⟩

/-- C6 (amended): with an archive loaded and a filter active, navigating to
a message id that the filter excludes from the filtered list of its owning
channel returns the distinct not-found value −1; the selected channel and
current page are unchanged whenever the owning channel is unknown or is the
selected channel itself (when it differs, the viewer first switches to
it). -/
theorem navigateToMessage_filtered_out (st : ViewState) (ch : String)
    (id : String)
    (hsel : st.selectedChannel = some ch)
    (hl : st.loadedMessages =
      some (sortWithCmp oldestToNewest (getFilteredMessageKeys st ch)))
    (_hfil : st.filterFunction.isSome = true)
    (hexcl : ∀ ch2, getMessageChannel st id = some ch2 →
      id ∉ getFilteredMessageKeys st ch2) :
    (navigateToMessage st id).1 = some (-1) ∧
    ((getMessageChannel st id = none ∨ getMessageChannel st id = some ch) →
      (navigateToMessage st id).2 = st) := by
  rcases hch : getMessageChannel st id with _ | ch2
  · -- the id is unknown to the store: no switch, not found
    have hnot : id ∉ getFilteredMessageKeys st ch := by
      intro hmem
      have := getMessageChannel_isSome_of_mem_filtered st ch id hmem
      rw [hch] at this
      simp at this
    have hfind : (sortWithCmp oldestToNewest (getFilteredMessageKeys st ch)).findIdx?
        (fun k => k = id) = none :=
      findIdx?_not_mem _ _ (not_mem_sortWithCmp _ _ _ hnot)
    simp [navigateToMessage, hl, hch, hfind]
  · by_cases hc2 : ch2 = ch
    · -- owning channel is the selected one: no switch, not found
      subst hc2
      have hnot : id ∉ getFilteredMessageKeys st ch2 := hexcl ch2 hch
      have hfind : (sortWithCmp oldestToNewest (getFilteredMessageKeys st ch2)).findIdx?
          (fun k => k = id) = none :=
        findIdx?_not_mem _ _ (not_mem_sortWithCmp _ _ _ hnot)
      simp [navigateToMessage, hl, hch, hsel, hfind]
    · -- different owning channel: the viewer switches, then reports not found
      have hnot : id ∉ getFilteredMessageKeys st ch2 := hexcl ch2 hch
      have hfind : (sortWithCmp oldestToNewest (getFilteredMessageKeys st ch2)).findIdx?
          (fun k => k = id) = none :=
        findIdx?_not_mem _ _ (not_mem_sortWithCmp _ _ _ hnot)
      have hne : ¬ (st.selectedChannel = some ch2) := by
        rw [hsel]
        intro hcc
        exact hc2 (Option.some_inj.mp hcc).symm
      constructor
      · simp [navigateToMessage, hl, hch, hne, selectChannel, hfind]
      · intro hcase
        rcases hcase with hnone | hsame
        · exact absurd hnone (by simp)
        · exact absurd (Option.some_inj.mp hsame) hc2

/-- C6 witness: the amended theorem applied at the concrete state, for a
filtered-out message in the already-selected channel. -/
theorem navigateToMessage_filtered_out_witness :
    (navigateToMessage exState6 "11").1 = some (-1) ∧
    ((getMessageChannel exState6 "11" = none ∨
      getMessageChannel exState6 "11" = some "1") →
      (navigateToMessage exState6 "11").2 = exState6) :=
  navigateToMessage_filtered_out exState6 "1" "11" rfl (by decide) rfl
    (fun ch2 h2 => by
      have : ch2 = "1" := by
        have h2e : getMessageChannel exState6 "11" = some "1" := by decide
        rw [h2e] at h2
        exact (Option.some_inj.mp h2).symm
      subst this
      decide)

/-! ## C8: escaping versus the no-embed URL unwrapping -/

/-- C8 counterexample: on the raw text `<https://abc>` the renderer (which
unwraps the no-embed wrapper on the raw text and escapes afterwards)
produces a different output from the claimed escape-first pipeline, in which
the already-escaped `&lt;…&gt;` can never match the unwrapping pattern. -/
theorem processMessageContents_escape_first_differs :
    processMessageContents initialViewState defaultSettings none "<https://abc>" ≠
      processMessageContentsEscapeFirst initialViewState defaultSettings none
        "<https://abc>" := by
  decide

theorem escapeHTMLChar_safe (c : Char) :
    ((escapeHTMLChar c).data.all
      (fun x => !(x = '<' || x = '>' || x = '"' || x.val = 39))) = true := by
  unfold escapeHTMLChar
  split_ifs with h1 h2 h3 h4 h5
  · decide
  · decide
  · decide
  · decide
  · decide
  · have : (String.mk [c]).data = [c] := rfl
    rw [this]
    simp [h2, h3, h4, h5]

/-- C8 (amended): escaping runs immediately after the no-embed URL
unwrapping — which, unlike the claim states, operates on the raw text — and
before every other transform: the formatting stages, URL auto-linking,
mention resolution and emoji substitution all receive the escaped output,
which contains no unescaped `<`, `>`, `"` or `'`. -/
theorem processMessageContents_escape_after_unwrap :
    (∀ (st : ViewState) (settings : Settings) (tok : Option String)
        (contents : String),
      processMessageContents st settings tok contents =
        "<p>" ++ String.mk (mentionAndLinkStages st settings tok
          (if settings.enableFormatting then
            formattingStages
              (escapeHTML (String.mk (applyStage stepFormatUrlNoEmbed contents.data))).data
          else
            (escapeHTML (String.mk (applyStage stepFormatUrlNoEmbed contents.data))).data)) ++
        "</p>") ∧
    (∀ s : String, ((escapeHTML s).data.all
      (fun x => !(x = '<' || x = '>' || x = '"' || x.val = 39))) = true) := by
  constructor
  · intro st settings tok contents
    rfl
  · intro s
    rw [show (escapeHTML s).data =
        s.data.flatMap (fun c => (escapeHTMLChar c).data) from rfl]
    rw [List.all_eq_true]
    intro x hx
    rw [List.mem_flatMap] at hx
    obtain ⟨c, _, hc⟩ := hx
    have hsafe := escapeHTMLChar_safe c
    rw [List.all_eq_true] at hsafe
    exact hsafe x hc

/-! ## C1: order determinism of the parallel export pipeline -/

theorem enumFrom_map_pair (h : Nat × α → β) (l : List α) : ∀ (j : Nat),
    (List.enumFrom j l).map (fun p => (p.1, h p)) =
      List.enumFrom j ((List.enumFrom j l).map h) := by
  induction l with
  | nil => intro j; rfl
  | cons a l ih =>
    intro j
    show (j, h (j, a)) :: (List.enumFrom (j + 1) l).map (fun p => (p.1, h p)) =
      (j, h (j, a)) :: List.enumFrom (j + 1) ((List.enumFrom (j + 1) l).map h)
    rw [ih (j + 1)]

theorem find?_enumFrom (s : List β) : ∀ (j i : Nat),
    (List.enumFrom j s).find? (fun t => t.1 = i) =
      if j ≤ i then (s[i - j]?).map (fun b => (i, b)) else none := by
  induction s with
  | nil =>
    intro j i
    simp [List.enumFrom]
  | cons b s ih =>
    intro j i
    by_cases hji : j = i
    · subst hji
      rw [show List.enumFrom j (b :: s) = (j, b) :: List.enumFrom (j + 1) s from rfl]
      rw [List.find?_cons_of_pos _ (by simp)]
      simp
    · rw [show List.enumFrom j (b :: s) = (j, b) :: List.enumFrom (j + 1) s from rfl]
      rw [List.find?_cons_of_neg _ (by simp [hji])]
      rw [ih (j + 1) i]
      by_cases hle : j ≤ i
      · have hle1 : j + 1 ≤ i := by omega
        rw [if_pos hle1, if_pos hle]
        have : i - j = (i - (j + 1)) + 1 := by omega
        rw [this, List.getElem?_cons_succ]
      · rw [if_neg (by omega), if_neg hle]

theorem find?_mapPair (seq : List β) (i : Nat) : ∀ (co : List Nat),
    ((co.filterMap (fun x => (seq[x]?).map (fun b => (x, b)))).find?
      (fun t => t.1 = i)) =
    (if i ∈ co then (seq[i]?).map (fun b => (i, b)) else none) := by
  intro co
  induction co with
  | nil => simp
  | cons x co ih =>
    rcases hx : seq[x]? with _ | b
    · rw [List.filterMap_cons_none (by rw [hx]; rfl), ih]
      by_cases hxi : x = i
      · subst hxi
        rw [hx]
        by_cases hm : x ∈ co <;> simp [hm]
      · have hmi : (i ∈ x :: co) ↔ (i ∈ co) := by
          constructor
          · intro hm
            rcases List.mem_cons.mp hm with he | hm2
            · exact absurd he.symm hxi
            · exact hm2
          · exact fun hm => List.mem_cons_of_mem _ hm
        by_cases hm : i ∈ co <;> simp [hm, hmi]
    · rw [List.filterMap_cons_some (by rw [hx]; rfl)]
      by_cases hxi : x = i
      · subst hxi
        rw [List.find?_cons_of_pos _ (by simp)]
        simp [hx]
      · rw [List.find?_cons_of_neg _ (by simp [hxi])]
        rw [ih]
        have hmi : (i ∈ x :: co) ↔ (i ∈ co) := by
          constructor
          · intro hm
            rcases List.mem_cons.mp hm with he | hm2
            · exact absurd he.symm hxi
            · exact hm2
          · exact fun hm => List.mem_cons_of_mem _ hm
        by_cases hm : i ∈ co <;> simp [hm, hmi]

theorem range_filterMap_getElem (l : List β) :
    (List.range l.length).filterMap (fun i => l[i]?) = l := by
  induction l with
  | nil => rfl
  | cons a l ih =>
    rw [show (a :: l).length = l.length + 1 from rfl, List.range_succ_eq_map,
      List.filterMap_cons]
    simp only [List.getElem?_cons_zero, List.filterMap_map]
    have hcomp : ((fun i => (a :: l)[i]?) ∘ Nat.succ) = fun i => l[i]? := by
      funext i
      simp [Function.comp]
    rw [hcomp, ih]

/-- C1: for every source store, every row list, every worker count ≥ 1 and
every order in which the workers may finish (any permutation of the task
indices), the parallel NDJSON generator yields exactly the sequential map of
`process_message` over the rows, in input order — the exported message
stream does not depend on the worker count or on scheduling. -/
theorem generate_messages_ndjson_deterministic (db : Db) (rows : List MsgRow)
    (num_threads : Nat) (completionOrder : List Nat)
    (_ht : 1 ≤ num_threads)
    (hperm : completionOrder.Perm (List.range rows.length)) :
    generate_messages_ndjson db rows num_threads completionOrder =
      sequentialMessages db rows := by
  have hlen : (sequentialMessages db rows).length = rows.length := by
    unfold sequentialMessages
    rw [List.length_map, List.enum_length]
  have htasks : rows.enum.map
      (fun p => (p.1, process_message db p.2 p.1 rows.length)) =
      (sequentialMessages db rows).enum := by
    unfold sequentialMessages
    exact enumFrom_map_pair _ rows 0
  have hfind : ∀ x : Nat, ((sequentialMessages db rows).enum.find?
      (fun t => t.1 = x)) =
      ((sequentialMessages db rows)[x]?).map (fun b => (x, b)) := by
    intro x
    have h0 := find?_enumFrom (sequentialMessages db rows) 0 x
    simpa using h0
  simp only [generate_messages_ndjson, htasks, hfind]
  rw [List.filterMap_congr (g := fun i => (sequentialMessages db rows)[i]?)]
  · rw [← hlen]
    exact range_filterMap_getElem _
  · intro i hi
    have hmem : i ∈ completionOrder := hperm.mem_iff.mpr hi
    rw [find?_mapPair, if_pos hmem]
    rcases hx : (sequentialMessages db rows)[i]? with _ | b <;> simp

/-- C1 witness: a two-row store processed with two workers finishing in
reversed order yields the sequential export. -/
theorem generate_messages_ndjson_deterministic_witness :
    generate_messages_ndjson exDb exRows 2 [1, 0] = sequentialMessages exDb exRows :=
  generate_messages_ndjson_deterministic exDb exRows 2 [1, 0] (by decide) (by decide)

/-! ## C4: hierarchy flattening — every channel appears exactly once -/

theorem alookup_eq_some_of_mem (l : List (String × α))
    (hnd : (l.map Prod.fst).Nodup) (k : String) (v : α) (h : (k, v) ∈ l) :
    alookup l k = some v := by
  induction l with
  | nil => cases h
  | cons kv rest ih =>
    rw [show alookup (kv :: rest) k =
        if kv.1 = k then some kv.2 else alookup rest k from rfl]
    rw [List.map_cons, List.nodup_cons] at hnd
    rcases List.mem_cons.mp h with he | hm
    · rw [← he]
      simp
    · by_cases hk : kv.1 = k
      · exfalso
        apply hnd.1
        rw [hk]
        exact List.mem_map.mpr ⟨(k, v), hm, rfl⟩
      · rw [if_neg hk]
        exact ih hnd.2 hm

theorem alookup_eq_none_of_not_mem (l : List (String × α)) (k : String)
    (h : k ∉ l.map Prod.fst) : alookup l k = none := by
  rcases hl : alookup l k with _ | v
  · rfl
  · exact absurd ((alookup_isSome_iff l k).mp (by rw [hl]; rfl)) h

theorem mem_childIds (meta : ViewMeta) (id p : String) :
    id ∈ childIds meta p ↔ ∃ ch, (id, ch) ∈ meta.channels ∧ ch.parent.getD "" = p := by
  unfold childIds
  constructor
  · intro h
    rcases List.mem_map.mp h with ⟨e, hmem, hfst⟩
    rcases List.mem_filter.mp hmem with ⟨hin, hpar⟩
    refine ⟨e.2, ?_, ?_⟩
    · rw [← hfst]
      exact hin
    · simpa [channelEntryParentKey] using hpar
  · intro ⟨ch, hmem, hpar⟩
    exact List.mem_map.mpr ⟨(id, ch),
      List.mem_filter.mpr ⟨hmem, by simpa [channelEntryParentKey] using hpar⟩, rfl⟩

theorem mem_childIds_iff (meta : ViewMeta)
    (hnd : (meta.channels.map Prod.fst).Nodup) (id p : String) :
    id ∈ childIds meta p ↔
      ∃ ch, alookup meta.channels id = some ch ∧ ch.parent.getD "" = p := by
  rw [mem_childIds]
  constructor
  · intro ⟨ch, hmem, hpar⟩
    exact ⟨ch, alookup_eq_some_of_mem _ hnd _ _ hmem, hpar⟩
  · intro ⟨ch, hlk, hpar⟩
    exact ⟨ch, alookup_mem _ _ _ hlk, hpar⟩

theorem childIds_subset (meta : ViewMeta) (id p : String)
    (h : id ∈ childIds meta p) : id ∈ meta.channels.map Prod.fst := by
  rcases (mem_childIds meta id p).mp h with ⟨ch, hmem, _⟩
  exact List.mem_map.mpr ⟨(id, ch), hmem, rfl⟩

theorem childIds_nodup (meta : ViewMeta)
    (hnd : (meta.channels.map Prod.fst).Nodup) (p : String) :
    (childIds meta p).Nodup := by
  unfold childIds
  exact ((List.filter_sublist meta.channels).map Prod.fst).nodup hnd

theorem childIds_disjoint (meta : ViewMeta)
    (hnd : (meta.channels.map Prod.fst).Nodup) (id p q : String)
    (hp : id ∈ childIds meta p) (hq : id ∈ childIds meta q) : p = q := by
  rcases (mem_childIds_iff meta hnd id p).mp hp with ⟨ch1, hl1, hp1⟩
  rcases (mem_childIds_iff meta hnd id q).mp hq with ⟨ch2, hl2, hp2⟩
  rw [hl1] at hl2
  injection hl2 with he
  rw [← hp1, ← hp2, he]

theorem mem_hierKeys_aux (meta : ViewMeta) :
    ∀ (l : List (String × ViewChannel)) (acc : List String) (x : String),
      (x ∈ acc ∨ ∃ e ∈ l, channelEntryParentKey e = x) →
      x ∈ l.foldl (fun acc e =>
        let k := channelEntryParentKey e
        if k ∈ acc then acc else acc ++ [k]) acc := by
  intro l
  induction l with
  | nil =>
    intro acc x h
    rcases h with h | ⟨e, he, _⟩
    · exact h
    · cases he
  | cons e l ih =>
    intro acc x h
    rw [List.foldl_cons]
    apply ih
    rcases h with h | ⟨e2, he2, hk⟩
    · left
      by_cases hmem : channelEntryParentKey e ∈ acc
      · simpa [hmem] using h
      · simp only [hmem, if_neg, if_false]
        exact List.mem_append_left _ h
    · rcases List.mem_cons.mp he2 with he | hm
      · left
        subst he
        rw [← hk]
        by_cases hmem : channelEntryParentKey e2 ∈ acc
        · simpa [hmem]
        · simp [hmem]
      · right
        exact ⟨e2, hm, hk⟩

theorem mem_hierKeys_of_entry (meta : ViewMeta) (id : String) (ch : ViewChannel)
    (h : (id, ch) ∈ meta.channels) : ch.parent.getD "" ∈ hierKeys meta := by
  unfold hierKeys
  exact mem_hierKeys_aux meta meta.channels [] _
    (Or.inr ⟨(id, ch), h, rfl⟩)

theorem hierKeys_nodup_aux :
    ∀ (l : List (String × ViewChannel)) (acc : List String), acc.Nodup →
      (l.foldl (fun acc e =>
        let k := channelEntryParentKey e
        if k ∈ acc then acc else acc ++ [k]) acc).Nodup := by
  intro l
  induction l with
  | nil => intro acc h; exact h
  | cons e l ih =>
    intro acc h
    rw [List.foldl_cons]
    apply ih
    by_cases hmem : channelEntryParentKey e ∈ acc
    · simpa [hmem]
    · simp only [hmem, if_neg, if_false]
      refine List.Nodup.append h (List.nodup_singleton _) ?_
      intro a ha hae
      rw [List.mem_singleton] at hae
      exact hmem (hae ▸ ha)

theorem hierKeys_nodup (meta : ViewMeta) : (hierKeys meta).Nodup :=
  hierKeys_nodup_aux meta.channels [] List.nodup_nil

theorem reachList_subset (meta : ViewMeta) :
    ∀ (f : Nat) (p x : String), x ∈ reachList meta f p →
      x = p ∨ x ∈ meta.channels.map Prod.fst := by
  intro f
  induction f with
  | zero => intro p x h; cases h
  | succ f ih =>
    intro p x h
    rw [show reachList meta (f + 1) p =
        p :: (childIds meta p).flatMap (reachList meta f) from rfl] at h
    rcases List.mem_cons.mp h with he | hm
    · exact Or.inl he
    · rcases List.mem_flatMap.mp hm with ⟨r, hr, hx⟩
      rcases ih r x hx with he2 | hm2
      · exact Or.inr (he2 ▸ childIds_subset meta r p hr)
      · exact Or.inr hm2

theorem root_mem_reach (meta : ViewMeta) :
    "" ∈ reachList meta (reachFuel meta) "" := by
  rw [show reachFuel meta = meta.channels.length + 1 from rfl]
  rw [show reachList meta (meta.channels.length + 1) "" =
      "" :: (childIds meta "").flatMap (reachList meta meta.channels.length) from rfl]
  exact List.mem_cons_self _ _

theorem mem_unreach_iff (meta : ViewMeta) (k : String) :
    k ∈ unreachKeys meta ↔
      k ∈ hierKeys meta ∧ k ∉ reachList meta (reachFuel meta) "" := by
  unfold unreachKeys
  rw [List.mem_filter]
  constructor
  · intro ⟨h1, h2⟩
    refine ⟨h1, fun hm => ?_⟩
    rw [Bool.not_eq_true', ← Bool.not_eq_true] at h2
    exact h2 (List.elem_iff.mpr hm)
  · intro ⟨h1, h2⟩
    refine ⟨h1, ?_⟩
    simp only [Bool.not_eq_true']
    rw [← Bool.not_eq_true]
    exact fun hc => h2 (List.elem_iff.mp hc)

theorem root_not_mem_unreach (meta : ViewMeta) : "" ∉ unreachKeys meta := by
  intro h
  exact ((mem_unreach_iff meta "").mp h).2 (root_mem_reach meta)

theorem unreach_nodup (meta : ViewMeta) : (unreachKeys meta).Nodup :=
  (List.filter_sublist _).nodup (hierKeys_nodup meta)

theorem flatMap_childIds_nodup (meta : ViewMeta)
    (hnd : (meta.channels.map Prod.fst).Nodup) :
    ∀ (us : List String), us.Nodup → (us.flatMap (childIds meta)).Nodup := by
  intro us
  induction us with
  | nil => intro _; exact List.nodup_nil
  | cons u us ih =>
    intro h
    rw [List.flatMap_cons]
    rcases List.nodup_cons.mp h with ⟨hu, hus⟩
    apply List.Nodup.append (childIds_nodup meta hnd u) (ih hus)
    intro a ha haf
    rcases List.mem_flatMap.mp haf with ⟨u2, hu2, hcu2⟩
    have he := childIds_disjoint meta hnd a u u2 ha hcu2
    exact hu (he ▸ hu2)

theorem flattened_nodup (meta : ViewMeta)
    (hnd : (meta.channels.map Prod.fst).Nodup) (p : String) :
    (flattenedChildren meta p).Nodup := by
  unfold flattenedChildren
  split_ifs with h1 h2
  · apply List.Nodup.append (childIds_nodup meta hnd "")
      (flatMap_childIds_nodup meta hnd _ (unreach_nodup meta))
    intro a ha haf
    rcases List.mem_flatMap.mp haf with ⟨u, hu, hcu⟩
    have he := childIds_disjoint meta hnd a "" u ha hcu
    exact root_not_mem_unreach meta (he ▸ hu)
  · exact List.nodup_nil
  · exact childIds_nodup meta hnd p

theorem mem_flattened_subset (meta : ViewMeta) (x p : String)
    (h : x ∈ flattenedChildren meta p) : x ∈ meta.channels.map Prod.fst := by
  unfold flattenedChildren at h
  split_ifs at h with h1 h2
  · rcases List.mem_append.mp h with hr | hf
    · exact childIds_subset meta x "" hr
    · rcases List.mem_flatMap.mp hf with ⟨u, _, hcu⟩
      exact childIds_subset meta x u hcu
  · cases h
  · exact childIds_subset meta x p h

theorem mem_flattened_iff (meta : ViewMeta)
    (hnd : (meta.channels.map Prod.fst).Nodup) (id p : String)
    (hid : id ∈ meta.channels.map Prod.fst) :
    id ∈ flattenedChildren meta p ↔ ownerOf meta id = p := by
  have hsome := (alookup_isSome_iff meta.channels id).mpr hid
  rcases Option.isSome_iff_exists.mp hsome with ⟨ch, hch⟩
  have howner : ownerOf meta id =
      (if ch.parent.getD "" ∈ unreachKeys meta then "" else ch.parent.getD "") := by
    unfold ownerOf
    rw [hch]
  have hcid : ∀ q, id ∈ childIds meta q ↔ ch.parent.getD "" = q := by
    intro q
    rw [mem_childIds_iff meta hnd]
    constructor
    · intro ⟨ch2, hl2, hp2⟩
      rw [hch] at hl2
      injection hl2 with he
      rw [he]
      exact hp2
    · intro hq
      exact ⟨ch, hch, hq⟩
  unfold flattenedChildren
  by_cases hp : p = ""
  · subst hp
    rw [if_pos rfl, List.mem_append, List.mem_flatMap]
    constructor
    · intro hcase
      rcases hcase with hroot | ⟨u, hu, hcu⟩
      · rw [howner, (hcid "").mp hroot, if_neg (root_not_mem_unreach meta)]
      · rw [howner, (hcid u).mp hcu, if_pos hu]
    · intro ho
      rw [howner] at ho
      by_cases hU : ch.parent.getD "" ∈ unreachKeys meta
      · exact Or.inr ⟨ch.parent.getD "", hU, (hcid _).mpr rfl⟩
      · rw [if_neg hU] at ho
        exact Or.inl ((hcid "").mpr ho)
  · rw [if_neg hp]
    by_cases hU : p ∈ unreachKeys meta
    · rw [if_pos hU]
      simp only [List.not_mem_nil, false_iff]
      intro ho
      rw [howner] at ho
      by_cases hU2 : ch.parent.getD "" ∈ unreachKeys meta
      · rw [if_pos hU2] at ho
        exact hp ho.symm
      · rw [if_neg hU2] at ho
        rw [ho] at hU2
        exact hU2 hU
    · rw [if_neg hU, hcid p, howner]
      constructor
      · intro hpk
        rw [hpk, if_neg hU]
      · intro ho
        by_cases hU2 : ch.parent.getD "" ∈ unreachKeys meta
        · rw [if_pos hU2] at ho
          exact absurd ho.symm hp
        · rw [if_neg hU2] at ho
          exact ho

theorem ownerOf_root (meta : ViewMeta)
    (hnz : "" ∉ meta.channels.map Prod.fst) : ownerOf meta "" = "" := by
  unfold ownerOf
  rw [alookup_eq_none_of_not_mem _ _ hnz]

theorem ownerOf_iterate_root (meta : ViewMeta)
    (hnz : "" ∉ meta.channels.map Prod.fst) (k : Nat) :
    (ownerOf meta)^[k] "" = "" :=
  Function.iterate_fixed (ownerOf_root meta hnz) k

theorem ownerOf_mem_ids (meta : ViewMeta) (x : String)
    (h : ownerOf meta x ≠ "") : ownerOf meta x ∈ meta.channels.map Prod.fst := by
  rcases hx : alookup meta.channels x with _ | c
  · exfalso
    apply h
    unfold ownerOf
    rw [hx]
  · have ho : ownerOf meta x =
        if c.parent.getD "" ∈ unreachKeys meta then "" else c.parent.getD "" := by
      unfold ownerOf
      rw [hx]
    rw [ho] at h ⊢
    by_cases hU : c.parent.getD "" ∈ unreachKeys meta
    · rw [if_pos hU] at h
      exact absurd rfl h
    · rw [if_neg hU] at h ⊢
      have hhier : c.parent.getD "" ∈ hierKeys meta :=
        mem_hierKeys_of_entry meta x c (alookup_mem _ _ _ hx)
      have hvis : c.parent.getD "" ∈ reachList meta (reachFuel meta) "" := by
        by_contra hnv
        exact hU ((mem_unreach_iff meta _).mpr ⟨hhier, hnv⟩)
      rcases reachList_subset meta (reachFuel meta) "" _ hvis with he | hm
      · exact absurd he h
      · exact hm

theorem reach_chain (meta : ViewMeta)
    (hnd : (meta.channels.map Prod.fst).Nodup) :
    ∀ (f : Nat) (p q : String), q ∈ reachList meta f p →
      ∀ (g : Nat), (ownerOf meta)^[g] p = "" →
      ∃ h, h ≤ g + f ∧ (ownerOf meta)^[h] q = "" := by
  intro f
  induction f with
  | zero => intro p q h; cases h
  | succ f ih =>
    intro p q hq g hg
    rw [show reachList meta (f + 1) p =
        p :: (childIds meta p).flatMap (reachList meta f) from rfl] at hq
    rcases List.mem_cons.mp hq with he | hm
    · exact ⟨g, by omega, he ▸ hg⟩
    · rcases List.mem_flatMap.mp hm with ⟨r, hr, hqr⟩
      rcases (mem_childIds_iff meta hnd r p).mp hr with ⟨ch, hlr, hpr⟩
      have hor : ownerOf meta r =
          if ch.parent.getD "" ∈ unreachKeys meta then "" else ch.parent.getD "" := by
        unfold ownerOf
        rw [hlr]
      by_cases hU : ch.parent.getD "" ∈ unreachKeys meta
      · have hor1 : (ownerOf meta)^[1] r = "" := by
          rw [Function.iterate_one, hor, if_pos hU]
        rcases ih r q hqr 1 hor1 with ⟨h, hle, hh⟩
        exact ⟨h, by omega, hh⟩
      · have hor1 : (ownerOf meta)^[g + 1] r = "" := by
          rw [Function.iterate_succ_apply, hor, if_neg hU, hpr]
          exact hg
        rcases ih r q hqr (g + 1) hor1 with ⟨h, hle, hh⟩
        exact ⟨h, by omega, hh⟩

theorem term_chain (meta : ViewMeta)
    (hnd : (meta.channels.map Prod.fst).Nodup)
    (c : String) (hc : c ∈ meta.channels.map Prod.fst) :
    ∃ m, m ≤ reachFuel meta + 1 ∧ (ownerOf meta)^[m] c = "" := by
  have hsome := (alookup_isSome_iff meta.channels c).mpr hc
  rcases Option.isSome_iff_exists.mp hsome with ⟨ch, hch⟩
  have hoc : ownerOf meta c =
      if ch.parent.getD "" ∈ unreachKeys meta then "" else ch.parent.getD "" := by
    unfold ownerOf
    rw [hch]
  by_cases hU : ch.parent.getD "" ∈ unreachKeys meta
  · refine ⟨1, by omega, ?_⟩
    rw [Function.iterate_one, hoc, if_pos hU]
  · have hhier : ch.parent.getD "" ∈ hierKeys meta :=
      mem_hierKeys_of_entry meta c ch (alookup_mem _ _ _ hch)
    have hvis : ch.parent.getD "" ∈ reachList meta (reachFuel meta) "" := by
      by_contra hnv
      exact hU ((mem_unreach_iff meta _).mpr ⟨hhier, hnv⟩)
    rcases reach_chain meta hnd (reachFuel meta) "" _ hvis 0 rfl with ⟨h, hle, hh⟩
    refine ⟨h + 1, by omega, ?_⟩
    rw [Function.iterate_succ_apply, hoc, if_neg hU]
    exact hh

theorem owner_no_repeat (meta : ViewMeta)
    (hnd : (meta.channels.map Prod.fst).Nodup)
    (hnz : "" ∉ meta.channels.map Prod.fst) (x : String) (k d : Nat)
    (hk : 1 ≤ k) (hd : 1 ≤ d)
    (hne : (ownerOf meta)^[k] x ≠ "")
    (heq : (ownerOf meta)^[k + d] x = (ownerOf meta)^[k] x) : False := by
  have hvc : (ownerOf meta)^[k] x ∈ meta.channels.map Prod.fst := by
    have hk1 : k = (k - 1) + 1 := by omega
    rw [hk1, Function.iterate_succ_apply'] at hne ⊢
    exact ownerOf_mem_ids meta _ hne
  have hperiod : (ownerOf meta)^[d] ((ownerOf meta)^[k] x) = (ownerOf meta)^[k] x := by
    rw [← Function.iterate_add_apply, Nat.add_comm d k]
    exact heq
  have hperiodic : ∀ t, (ownerOf meta)^[d * t] ((ownerOf meta)^[k] x) =
      (ownerOf meta)^[k] x := by
    intro t
    induction t with
    | zero => simp
    | succ t ih =>
      have hmul : d * (t + 1) = d * t + d := by ring
      rw [hmul, Function.iterate_add_apply, hperiod, ih]
  rcases term_chain meta hnd ((ownerOf meta)^[k] x) hvc with ⟨m, _, hm⟩
  have hbig : m ≤ d * (m + 1) := by
    have := Nat.le_mul_of_pos_left (m + 1) (show 0 < d by omega)
    omega
  have hzero : (ownerOf meta)^[d * (m + 1)] ((ownerOf meta)^[k] x) = "" := by
    have hsplit : d * (m + 1) = (d * (m + 1) - m) + m := by omega
    rw [hsplit, Function.iterate_add_apply, hm, ownerOf_iterate_root meta hnz]
  rw [hperiodic (m + 1)] at hzero
  exact hne hzero

theorem count_flatMap_cons (c : String) (g : String → List String) :
    ∀ (L : List String),
      (L.flatMap (fun id => id :: g id)).count c =
        L.count c + (L.map (fun id => (g id).count c)).sum := by
  intro L
  induction L with
  | nil => rfl
  | cons a L ih =>
    rw [List.flatMap_cons, List.count_append, List.count_cons, List.map_cons,
      List.sum_cons, List.count_cons, ih]
    omega

theorem map_sum_zero (g : String → Nat) (L : List String)
    (h : ∀ x ∈ L, g x = 0) : (L.map g).sum = 0 := by
  apply List.sum_eq_zero
  intro y hy
  rcases List.mem_map.mp hy with ⟨x, hx, hgx⟩
  rw [← hgx]
  exact h x hx

theorem map_sum_single (g : String → Nat) :
    ∀ (L : List String), L.Nodup → ∀ id0, id0 ∈ L → g id0 = 1 →
      (∀ x ∈ L, x ≠ id0 → g x = 0) → (L.map g).sum = 1 := by
  intro L
  induction L with
  | nil =>
    intro _ id0 h
    cases h
  | cons a L ih =>
    intro hnd id0 hmem h1 h0
    rcases List.nodup_cons.mp hnd with ⟨ha, hL⟩
    rw [List.map_cons, List.sum_cons]
    rcases List.mem_cons.mp hmem with he | hm
    · subst he
      rw [h1]
      have hz : (L.map g).sum = 0 :=
        map_sum_zero g L (fun x hx =>
          h0 x (List.mem_cons_of_mem _ hx) (fun hxe => ha (hxe ▸ hx)))
      omega
    · have hga : g a = 0 :=
        h0 a (List.mem_cons_self _ _) (fun hae => ha (hae ▸ hm))
      rw [hga, ih hL id0 hm h1
        (fun x hx hxn => h0 x (List.mem_cons_of_mem _ hx) hxn)]

theorem count_flattened (meta : ViewMeta)
    (hnd : (meta.channels.map Prod.fst).Nodup) (c p : String)
    (hc : c ∈ meta.channels.map Prod.fst) :
    (flattenedChildren meta p).count c = if ownerOf meta c = p then 1 else 0 := by
  by_cases h : ownerOf meta c = p
  · rw [if_pos h]
    have hm : c ∈ flattenedChildren meta p := (mem_flattened_iff meta hnd c p hc).mpr h
    have h1 := List.nodup_iff_count_le_one.mp (flattened_nodup meta hnd p) c
    have h2 := List.count_pos_iff.mpr hm
    omega
  · rw [if_neg h, List.count_eq_zero]
    intro hm
    exact h ((mem_flattened_iff meta hnd c p hc).mp hm)

theorem traversal_count (meta : ViewMeta)
    (hnd : (meta.channels.map Prod.fst).Nodup)
    (hnz : "" ∉ meta.channels.map Prod.fst) :
    ∀ (fuel : Nat) (p c : String), c ∈ meta.channels.map Prod.fst →
      (emitHit meta fuel p c → (getSortedSubTree meta fuel p).count c = 1) ∧
      (¬ emitHit meta fuel p c → (getSortedSubTree meta fuel p).count c = 0) := by
  intro fuel
  induction fuel with
  | zero =>
    intro p c _
    constructor
    · rintro ⟨k, hk1, hk0, _⟩
      omega
    · intro _
      rfl
  | succ fuel ih =>
    intro p c hc
    have hdecomp : (getSortedSubTree meta (fuel + 1) p).count c =
        (flattenedChildren meta p).count c +
        ((flattenedChildren meta p).map
          (fun id => (getSortedSubTree meta fuel id).count c)).sum := by
      rw [show getSortedSubTree meta (fuel + 1) p =
          (sortWithCmp (compareChannels meta) (flattenedChildren meta p)).flatMap
            (fun id => id :: getSortedSubTree meta fuel id) from rfl]
      rw [count_flatMap_cons]
      have hperm : (sortWithCmp (compareChannels meta)
          (flattenedChildren meta p)).Perm (flattenedChildren meta p) :=
        List.perm_insertionSort _ _
      rw [hperm.count_eq]
      congr 1
      exact (hperm.map _).sum_eq
    constructor
    · rintro ⟨k, hk1, hkf, hkp, hkj⟩
      by_cases hke1 : k = 1
      · subst hke1
        have hoc : ownerOf meta c = p := by
          rw [← Function.iterate_one (ownerOf meta)]
          exact hkp
        rw [hdecomp, count_flattened meta hnd c p hc, if_pos hoc]
        have hzero : ((flattenedChildren meta p).map
            (fun id => (getSortedSubTree meta fuel id).count c)).sum = 0 := by
          apply map_sum_zero
          intro id hid
          have hidids := mem_flattened_subset meta id p hid
          have hoid : ownerOf meta id = p :=
            (mem_flattened_iff meta hnd id p hidids).mp hid
          apply (ih id c hc).2
          rintro ⟨k2, hk21, hk2f, hk2p, hk2j⟩
          by_cases hpz : p = ""
          · subst hpz
            by_cases hk21e : k2 = 1
            · subst hk21e
              have hiz : id = "" := by
                rw [← hk2p, Function.iterate_one]
                exact hoc
              exact hnz (hiz ▸ hidids)
            · apply hk2j 1 le_rfl (by omega)
              rw [Function.iterate_one]
              exact hoc
          · apply owner_no_repeat meta hnd hnz c 1 k2 le_rfl hk21
            · rw [Function.iterate_one, hoc]
              exact hpz
            · rw [show 1 + k2 = k2 + 1 from by omega, Function.iterate_succ_apply',
                hk2p, hoid, Function.iterate_one, hoc]
        rw [hzero]
      · have hk2 : 2 ≤ k := by omega
        have hocnp : ownerOf meta c ≠ p := by
          intro hoc
          by_cases hpz : p = ""
          · subst hpz
            apply hkj 1 le_rfl (by omega)
            rw [Function.iterate_one]
            exact hoc
          · apply owner_no_repeat meta hnd hnz c 1 (k - 1) le_rfl (by omega)
            · rw [Function.iterate_one, hoc]
              exact hpz
            · rw [show 1 + (k - 1) = k from by omega, hkp, Function.iterate_one, hoc]
        rw [hdecomp, count_flattened meta hnd c p hc, if_neg hocnp]
        set id0 := (ownerOf meta)^[k - 1] c with hid0
        have hid0ne : id0 ≠ "" := by
          intro hz
          apply hkj (k - 1) (by omega) (by omega)
          rw [← hid0]
          exact hz
        have hrw : (ownerOf meta)^[k - 1] c =
            ownerOf meta ((ownerOf meta)^[k - 2] c) := by
          rw [show k - 1 = (k - 2) + 1 from by omega]
          exact Function.iterate_succ_apply' _ _ _
        have hid0ids : id0 ∈ meta.channels.map Prod.fst := by
          rw [hid0, hrw]
          apply ownerOf_mem_ids
          rw [← hrw, ← hid0]
          exact hid0ne
        have hoid0 : ownerOf meta id0 = p := by
          have hstep := Function.iterate_succ_apply' (ownerOf meta) (k - 1) c
          rw [hid0, ← hstep, show (k - 1).succ = k from by omega]
          exact hkp
        have hid0mem : id0 ∈ flattenedChildren meta p :=
          (mem_flattened_iff meta hnd id0 p hid0ids).mpr hoid0
        have hsum : ((flattenedChildren meta p).map
            (fun id => (getSortedSubTree meta fuel id).count c)).sum = 1 := by
          apply map_sum_single _ _ (flattened_nodup meta hnd p) id0 hid0mem
          · apply (ih id0 c hc).1
            exact ⟨k - 1, by omega, by omega, hid0.symm,
              fun j hj1 hjk => hkj j hj1 (by omega)⟩
          · intro x hx hxne
            have hxids := mem_flattened_subset meta x p hx
            have hox : ownerOf meta x = p :=
              (mem_flattened_iff meta hnd x p hxids).mp hx
            apply (ih x c hc).2
            rintro ⟨k2, hk21, hk2f, hk2p, hk2j⟩
            have hkk2 : (ownerOf meta)^[k2 + 1] c = p := by
              rw [Function.iterate_succ_apply', hk2p, hox]
            by_cases hke : k2 + 1 = k
            · apply hxne
              rw [← hk2p, hid0]
              congr 1
              omega
            · by_cases hpz : p = ""
              · subst hpz
                by_cases hlt : k2 + 1 < k
                · exact (hkj (k2 + 1) (by omega) hlt) hkk2
                · by_cases hkk2e : k = k2
                  · apply hnz
                    have hxz : x = "" := by
                      rw [← hk2p, ← hkk2e]
                      exact hkp
                    exact hxz ▸ hxids
                  · exact (hk2j k (by omega) (by omega)) hkp
              · rcases Nat.lt_or_ge (k2 + 1) k with hlt | hge
                · apply owner_no_repeat meta hnd hnz c (k2 + 1) (k - (k2 + 1))
                    (by omega) (by omega)
                  · rw [hkk2]
                    exact hpz
                  · rw [show k2 + 1 + (k - (k2 + 1)) = k from by omega, hkp, hkk2]
                · apply owner_no_repeat meta hnd hnz c k (k2 + 1 - k)
                    (by omega) (by omega)
                  · rw [hkp]
                    exact hpz
                  · rw [show k + (k2 + 1 - k) = k2 + 1 from by omega, hkk2, hkp]
        rw [hsum]
    · intro hne
      rw [hdecomp]
      have hcnt : (flattenedChildren meta p).count c = 0 := by
        rw [count_flattened meta hnd c p hc, if_neg]
        intro hoc
        apply hne
        exact ⟨1, le_rfl, by omega,
          by rw [Function.iterate_one]; exact hoc,
          fun j hj1 hj => by omega⟩
      have hsum : ((flattenedChildren meta p).map
          (fun id => (getSortedSubTree meta fuel id).count c)).sum = 0 := by
        apply map_sum_zero
        intro id hid
        have hidids := mem_flattened_subset meta id p hid
        have hoid : ownerOf meta id = p :=
          (mem_flattened_iff meta hnd id p hidids).mp hid
        apply (ih id c hc).2
        rintro ⟨k2, hk21, hk2f, hk2p, hk2j⟩
        apply hne
        refine ⟨k2 + 1, by omega, by omega, ?_, ?_⟩
        · rw [Function.iterate_succ_apply', hk2p, hoid]
        · intro j hj1 hjlt
          by_cases hje : j = k2
          · subst hje
            rw [hk2p]
            intro hz
            exact hnz (hz ▸ hidids)
          · exact hk2j j hj1 (by omega)
      rw [hcnt, hsum]

/-- C4: for every channel map whose ids are distinct and nonempty — parent
links may contain cycles or dangling references — hierarchy resolution
reparents the children of root-unreachable parent keys under the root and
discards those keys, so the pre-order traversal contains every channel id
exactly once; concretely, the two channels whose parent links form the
cycle 1 → 2 → 1 both appear as root-level entries after resolution. -/
theorem channel_hierarchy_exactly_once :
    (∀ meta : ViewMeta,
      (meta.channels.map Prod.fst).Nodup →
      "" ∉ meta.channels.map Prod.fst →
      ∀ c ∈ meta.channels.map Prod.fst,
        (channelOrderArray meta).count c = 1) ∧
    ((alookup cycleMeta.channels "1").map ViewChannel.parent = some (some "2") ∧
     (alookup cycleMeta.channels "2").map ViewChannel.parent = some (some "1") ∧
     "1" ∈ flattenedChildren cycleMeta "" ∧
     "2" ∈ flattenedChildren cycleMeta "") := by
  constructor
  · intro meta hnd hnz c hc
    have hex : ∃ m, (ownerOf meta)^[m] c = "" := by
      rcases term_chain meta hnd c hc with ⟨m, _, hm⟩
      exact ⟨m, hm⟩
    have hspec : (ownerOf meta)^[Nat.find hex] c = "" := Nat.find_spec hex
    have hmin : ∀ j, j < Nat.find hex → (ownerOf meta)^[j] c ≠ "" :=
      fun j hj => Nat.find_min hex hj
    have hm01 : 1 ≤ Nat.find hex := by
      by_contra h
      have hz : Nat.find hex = 0 := by omega
      rw [hz] at hspec
      exact hnz (hspec ▸ hc)
    have hbound : Nat.find hex ≤ meta.channels.length + 2 := by
      rcases term_chain meta hnd c hc with ⟨m, hmb, hm⟩
      have hle := Nat.find_min' hex hm
      unfold reachFuel at hmb
      omega
    have hemit : emitHit meta (orderFuel meta) "" c := by
      refine ⟨Nat.find hex, hm01, ?_, hspec, ?_⟩
      · unfold orderFuel
        omega
      · intro j _ hjlt
        exact hmin j hjlt
    exact (traversal_count meta hnd hnz (orderFuel meta) "" c hc).1 hemit
  · exact ⟨rfl, rfl, by decide, by decide⟩

/-- C4 witness: the exactly-once theorem applied to the cyclic two-channel
metadata. -/
theorem channel_hierarchy_exactly_once_witness :
    (channelOrderArray cycleMeta).count "1" = 1 :=
  channel_hierarchy_exactly_once.1 cycleMeta (by decide) (by decide) "1" (by decide)
